import Mathlib

/-!
Verification of the Nissan ROM checksum engine and structural-recovery
helpers (nislib.c, nisrom.c) against their natural-language specification.

The C code is shallowly embedded: a byte buffer is a `List Nat` whose
elements are the byte values (well-formedness `Wf8` states every byte is
below 256), file offsets that are C `long`s are `Int`, unsigned 32-bit
quantities are `Nat` reduced modulo `2^32` exactly where the C's `uint32_t`
arithmetic wraps.  Out-of-bounds accesses cannot trap in the embedding, so
every buffer access additionally reports a bounds flag, collected into an
`oob` field of each result; the value delivered by an out-of-bounds read is
modelled as 0 and never relied upon by an in-bounds theorem.
-/

namespace Nisutils

/-- `2^32` truncation, the effect of storing into a `uint32_t`. -/
def u32 (x : Nat) : Nat := x % 2 ^ 32

/-- Wrapping 32-bit subtraction `a - b` on `uint32_t` operands. -/
def sub32 (a b : Nat) : Nat := u32 (a + (2 ^ 32 - u32 b))

/-- Byte at index `i`; reading past the end of the modelled storage
yields 0 (the flagging of such reads is done at the call sites). -/
def byteAt (buf : List Nat) (i : Nat) : Nat := buf.getD i 0

/-- Every byte value fits in 8 bits (a `uint8_t` buffer). -/
abbrev Wf8 (buf : List Nat) : Prop := ∀ b ∈ buf, b < 256

/-- nislib.c `reconst_32`: read 4 bytes at `*buf` big-endian
(`buf[0] << 24 | buf[1] << 16 | buf[2] << 8 | buf[3]`). -/
def reconst_32 (buf : List Nat) : Nat :=
  byteAt buf 0 <<< 24 ||| byteAt buf 1 <<< 16 ||| byteAt buf 2 <<< 8 ||| byteAt buf 3

/-- nislib.c `write_32b`: write `val` as 4 big-endian bytes at `*buf`,
storing the low byte at `buf[3]` first and shifting `val` down by 8
between stores. -/
def write_32b (val : Nat) (buf : List Nat) : List Nat :=
  ((((buf.set 3 (val &&& 0xFF)).set 2 ((val >>> 8) &&& 0xFF)).set 1
      ((val >>> 16) &&& 0xFF)).set 0 ((val >>> 24) &&& 0xFF))

/-- `reconst_32(&buf[p])`: big-endian word at byte offset `p`. -/
def rd32 (buf : List Nat) (p : Nat) : Nat := reconst_32 (buf.drop p)

/-- `write_32b(v, &buf[p])`: the buffer with the 4 bytes at offset `p`
replaced by the big-endian encoding of `v`. -/
def wr32 (buf : List Nat) (p : Nat) (v : Nat) : List Nat :=
  buf.take p ++ write_32b v (buf.drop p)

/-- `reconst_32(&buf[p])` with a C `long` offset; a negative offset is an
out-of-bounds access (flagged at call sites), its value modelled as 0. -/
def rd32i (buf : List Nat) (p : Int) : Nat :=
  if 0 ≤ p then rd32 buf p.toNat else 0

/-- `write_32b(v, &buf[p])` with a C `long` offset; a negative offset is an
out-of-bounds access (flagged at call sites), modelled as leaving the
buffer unchanged. -/
def wr32i (buf : List Nat) (p : Int) (v : Nat) : List Nat :=
  if 0 ≤ p then wr32 buf p.toNat v else buf

/-- The 4-byte access at signed offset `p` stays inside a buffer of
`len` bytes. -/
def okB (len : Nat) (p : Int) : Bool := decide (0 ≤ p ∧ p + 4 ≤ (len : Int))

/- ### Basic facts about the byte primitives -/

theorem byteAt_lt_of_wf {buf : List Nat} (h : Wf8 buf) (i : Nat) :
    byteAt buf i < 256 := by
  unfold byteAt List.getD
  cases hg : buf[i]? with
  | none => simp [hg]
  | some b =>
    have hm : b ∈ buf := List.getElem?_mem hg
    simpa [hg] using h b hm

theorem reconst_32_lt {buf : List Nat} (h : Wf8 buf) : reconst_32 buf < 2 ^ 32 := by
  have h0 : byteAt buf 0 < 256 := byteAt_lt_of_wf h 0
  have h1 : byteAt buf 1 < 256 := byteAt_lt_of_wf h 1
  have h2 : byteAt buf 2 < 256 := byteAt_lt_of_wf h 2
  have h3 : byteAt buf 3 < 256 := byteAt_lt_of_wf h 3
  unfold reconst_32
  have l0 : byteAt buf 0 <<< 24 < 2 ^ 32 := by rw [Nat.shiftLeft_eq]; omega
  have l1 : byteAt buf 1 <<< 16 < 2 ^ 32 := by rw [Nat.shiftLeft_eq]; omega
  have l2 : byteAt buf 2 <<< 8 < 2 ^ 32 := by rw [Nat.shiftLeft_eq]; omega
  have l3 : byteAt buf 3 < 2 ^ 32 := by omega
  exact Nat.or_lt_two_pow (Nat.or_lt_two_pow (Nat.or_lt_two_pow l0 l1) l2) l3

theorem rd32_lt {buf : List Nat} (h : Wf8 buf) (p : Nat) : rd32 buf p < 2 ^ 32 :=
  reconst_32_lt (fun b hb => h b (List.drop_subset p buf hb))

theorem rd32i_lt {buf : List Nat} (h : Wf8 buf) (p : Int) : rd32i buf p < 2 ^ 32 := by
  unfold rd32i
  split
  · exact rd32_lt h _
  · norm_num

/-- Big-endian recombination of four bytes is their base-256 value. -/
theorem concat4_eq (b0 b1 b2 b3 : Nat) (h1 : b1 < 256) (h2 : b2 < 256) (h3 : b3 < 256) :
    b0 <<< 24 ||| b1 <<< 16 ||| b2 <<< 8 ||| b3 =
      ((b0 * 256 + b1) * 256 + b2) * 256 + b3 := by
  have e0 : b0 <<< 24 = 2 ^ 24 * b0 := by rw [Nat.shiftLeft_eq]; ring
  have e1 : b1 <<< 16 = 2 ^ 16 * b1 := by rw [Nat.shiftLeft_eq]; ring
  have e2 : b2 <<< 8 = 2 ^ 8 * b2 := by rw [Nat.shiftLeft_eq]; ring
  have s1 : b0 <<< 24 ||| b1 <<< 16 = 2 ^ 24 * b0 + 2 ^ 16 * b1 := by
    rw [e0, e1, ← Nat.mul_add_lt_is_or (by omega : 2 ^ 16 * b1 < 2 ^ 24) b0]
  have s2 : (b0 <<< 24 ||| b1 <<< 16) ||| b2 <<< 8
      = 2 ^ 16 * (2 ^ 8 * b0 + b1) + 2 ^ 8 * b2 := by
    rw [s1, e2]
    have h : 2 ^ 24 * b0 + 2 ^ 16 * b1 = 2 ^ 16 * (2 ^ 8 * b0 + b1) := by ring
    rw [h, ← Nat.mul_add_lt_is_or (by omega : 2 ^ 8 * b2 < 2 ^ 16) (2 ^ 8 * b0 + b1)]
  have s3 : ((b0 <<< 24 ||| b1 <<< 16) ||| b2 <<< 8) ||| b3
      = 2 ^ 8 * (2 ^ 8 * (2 ^ 8 * b0 + b1) + b2) + b3 := by
    rw [s2]
    have h : 2 ^ 16 * (2 ^ 8 * b0 + b1) + 2 ^ 8 * b2
        = 2 ^ 8 * (2 ^ 8 * (2 ^ 8 * b0 + b1) + b2) := by ring
    rw [h, ← Nat.mul_add_lt_is_or (by omega : b3 < 2 ^ 8) (2 ^ 8 * (2 ^ 8 * b0 + b1) + b2)]
  rw [s3]; ring

theorem and255_eq_mod (x : Nat) : x &&& 0xFF = x % 256 := by
  have h := Nat.and_pow_two_sub_one_eq_mod x 8
  norm_num at h
  exact h

theorem write_32b_cons (a b c d v : Nat) (t : List Nat) :
    write_32b v (a :: b :: c :: d :: t) =
      ((v >>> 24) &&& 0xFF) :: ((v >>> 16) &&& 0xFF) :: ((v >>> 8) &&& 0xFF) ::
        (v &&& 0xFF) :: t := rfl

theorem reconst_32_cons (a b c d : Nat) (t : List Nat) :
    reconst_32 (a :: b :: c :: d :: t) = a <<< 24 ||| b <<< 16 ||| c <<< 8 ||| d := rfl

/-- Reconstructing the four bytes written by `write_32b` recovers the value. -/
theorem reconst_32_write_32b {buf : List Nat} (v : Nat) (hv : v < 2 ^ 32)
    (hlen : 4 ≤ buf.length) : reconst_32 (write_32b v buf) = v := by
  match buf, hlen with
  | a :: b :: c :: d :: t, _ =>
    rw [write_32b_cons, reconst_32_cons]
    rw [and255_eq_mod, and255_eq_mod, and255_eq_mod, and255_eq_mod]
    rw [Nat.shiftRight_eq_div_pow, Nat.shiftRight_eq_div_pow, Nat.shiftRight_eq_div_pow]
    rw [concat4_eq _ _ _ _ (by omega) (by omega) (by omega)]
    omega

/-- Writing back the reconstructed word leaves the buffer unchanged. -/
theorem write_32b_reconst_32 {buf : List Nat} (hw : Wf8 buf) (hlen : 4 ≤ buf.length) :
    write_32b (reconst_32 buf) buf = buf := by
  match buf, hlen with
  | a :: b :: c :: d :: t, _ =>
    have ha : a < 256 := hw a (by simp)
    have hb : b < 256 := hw b (by simp)
    have hc : c < 256 := hw c (by simp)
    have hd : d < 256 := hw d (by simp)
    rw [reconst_32_cons, write_32b_cons]
    rw [and255_eq_mod, and255_eq_mod, and255_eq_mod, and255_eq_mod]
    rw [Nat.shiftRight_eq_div_pow, Nat.shiftRight_eq_div_pow, Nat.shiftRight_eq_div_pow]
    rw [concat4_eq _ _ _ _ hb hc hd]
    have e0 : ((a * 256 + b) * 256 + c) * 256 + d = a * 2 ^ 24 + (b * 2 ^ 16 + (c * 2 ^ 8 + d)) := by
      ring
    rw [e0]
    congr 1
    · omega
    congr 1
    · omega
    congr 1
    · omega
    congr 1
    · omega

theorem byteAt_drop (buf : List Nat) (p k : Nat) :
    byteAt (buf.drop p) k = byteAt buf (p + k) := by
  unfold byteAt
  simp [List.getElem?_drop]

theorem rd32_eq_bytes (buf : List Nat) (p : Nat) :
    rd32 buf p = byteAt buf p <<< 24 ||| byteAt buf (p + 1) <<< 16 |||
      byteAt buf (p + 2) <<< 8 ||| byteAt buf (p + 3) := by
  unfold rd32 reconst_32
  rw [byteAt_drop, byteAt_drop, byteAt_drop, byteAt_drop, Nat.add_zero]

theorem length_write_32b (v : Nat) (buf : List Nat) :
    (write_32b v buf).length = buf.length := by
  simp [write_32b]

theorem length_wr32 {buf : List Nat} {p : Nat} (h : p ≤ buf.length) (v : Nat) :
    (wr32 buf p v).length = buf.length := by
  simp [wr32, length_write_32b]
  omega

theorem length_wr32i {buf : List Nat} {p : Int} (h : 0 ≤ p → p.toNat ≤ buf.length)
    (v : Nat) : (wr32i buf p v).length = buf.length := by
  unfold wr32i
  split
  · exact length_wr32 (h (by assumption)) v
  · rfl

theorem wf8_write_32b {buf : List Nat} (h : Wf8 buf) (v : Nat) : Wf8 (write_32b v buf) := by
  intro b hb
  unfold write_32b at hb
  have h255 : ∀ x : Nat, x &&& 0xFF < 256 := by
    intro x; rw [and255_eq_mod]; omega
  rcases List.mem_or_eq_of_mem_set hb with hb1 | hb1
  · rcases List.mem_or_eq_of_mem_set hb1 with hb2 | hb2
    · rcases List.mem_or_eq_of_mem_set hb2 with hb3 | hb3
      · rcases List.mem_or_eq_of_mem_set hb3 with hb4 | hb4
        · exact h b hb4
        · subst hb4; exact h255 _
      · subst hb3; exact h255 _
    · subst hb2; exact h255 _
  · subst hb1; exact h255 _

theorem wf8_wr32 {buf : List Nat} (h : Wf8 buf) (p v : Nat) : Wf8 (wr32 buf p v) := by
  intro b hb
  unfold wr32 at hb
  rcases List.mem_append.1 hb with hb1 | hb1
  · exact h b (List.take_subset p buf hb1)
  · exact wf8_write_32b (fun x hx => h x (List.drop_subset p buf hx)) v b hb1

theorem wf8_wr32i {buf : List Nat} (h : Wf8 buf) (p : Int) (v : Nat) :
    Wf8 (wr32i buf p v) := by
  unfold wr32i
  split
  · exact wf8_wr32 h _ v
  · exact h

/-- Reading a freshly written word back gives the written value. -/
theorem rd32_wr32_same {buf : List Nat} {p : Nat} (hp : p + 4 ≤ buf.length)
    {v : Nat} (hv : v < 2 ^ 32) : rd32 (wr32 buf p v) p = v := by
  unfold rd32 wr32
  have hlt : (buf.take p).length = p := List.length_take_of_le (by omega)
  rw [List.drop_left' hlt]
  exact reconst_32_write_32b v hv (by simp; omega)

theorem byteAt_wr32_lt {buf : List Nat} {p j : Nat} (hj : j < p) (hp : p ≤ buf.length)
    (v : Nat) : byteAt (wr32 buf p v) j = byteAt buf j := by
  unfold wr32 byteAt
  have hlt : (buf.take p).length = p := List.length_take_of_le hp
  simp only [List.getD_eq_getElem?_getD]
  rw [List.getElem?_append_left (by omega)]
  rw [List.getElem?_take_of_lt hj]

theorem getElem?_write_32b_ge {l : List Nat} {i : Nat} (hi : 4 ≤ i) (v : Nat) :
    (write_32b v l)[i]? = l[i]? := by
  unfold write_32b
  rw [List.getElem?_set_ne (by omega), List.getElem?_set_ne (by omega),
    List.getElem?_set_ne (by omega), List.getElem?_set_ne (by omega)]

theorem byteAt_wr32_ge {buf : List Nat} {p j : Nat} (hj : p + 4 ≤ j) (hp : p ≤ buf.length)
    (v : Nat) : byteAt (wr32 buf p v) j = byteAt buf j := by
  unfold wr32 byteAt
  have hlt : (buf.take p).length = p := List.length_take_of_le hp
  simp only [List.getD_eq_getElem?_getD]
  rw [List.getElem?_append_right (by omega)]
  rw [hlt, getElem?_write_32b_ge (by omega), List.getElem?_drop]
  congr 2
  omega

/-- Reading a word disjoint from a written word is unaffected. -/
theorem rd32_wr32_other {buf : List Nat} {p q : Nat}
    (hdis : q + 4 ≤ p ∨ p + 4 ≤ q) (hp : p ≤ buf.length) (v : Nat) :
    rd32 (wr32 buf p v) q = rd32 buf q := by
  rw [rd32_eq_bytes, rd32_eq_bytes]
  rcases hdis with hd | hd
  · rw [byteAt_wr32_lt (by omega) hp, byteAt_wr32_lt (by omega) hp,
      byteAt_wr32_lt (by omega) hp, byteAt_wr32_lt (by omega) hp]
  · rw [byteAt_wr32_ge (by omega) hp, byteAt_wr32_ge (by omega) hp,
      byteAt_wr32_ge (by omega) hp, byteAt_wr32_ge (by omega) hp]

theorem rd32i_wr32i_same {buf : List Nat} {p : Int} (h0 : 0 ≤ p)
    (hp : p + 4 ≤ (buf.length : Int)) {v : Nat} (hv : v < 2 ^ 32) :
    rd32i (wr32i buf p v) p = v := by
  unfold rd32i wr32i
  rw [if_pos h0, if_pos h0]
  exact rd32_wr32_same (by omega) hv

theorem rd32i_wr32i_other {buf : List Nat} {p q : Int} (h0 : 0 ≤ p) (hq0 : 0 ≤ q)
    (hdis : q + 4 ≤ p ∨ p + 4 ≤ q) (hp : p ≤ (buf.length : Int)) (v : Nat) :
    rd32i (wr32i buf p v) q = rd32i buf q := by
  unfold rd32i wr32i
  rw [if_pos h0, if_pos hq0, if_pos hq0]
  exact rd32_wr32_other (by omega) (by omega) v

/-- C10: big-endian word access round-trips.  For every 32-bit value `v` and
every byte buffer of at least 4 bytes, `reconst_32` applied after
`write_32b v` returns `v`, and writing back `reconst_32 buf` leaves the
four bytes (and the rest of the buffer) unchanged. -/
theorem reconst_write_roundtrip (buf : List Nat) (v : Nat) (hv : v < 2 ^ 32)
    (hw : Wf8 buf) (hlen : 4 ≤ buf.length) :
    reconst_32 (write_32b v buf) = v ∧ write_32b (reconst_32 buf) buf = buf :=
  ⟨reconst_32_write_32b v hv hlen, write_32b_reconst_32 hw hlen⟩

/-- Witness for `reconst_write_roundtrip` at a concrete buffer and value. -/
theorem reconst_write_roundtrip_witness :
    reconst_32 (write_32b 0x12345678 [1, 2, 3, 4]) = 0x12345678 ∧
    write_32b (reconst_32 [1, 2, 3, 4]) [1, 2, 3, 4] = [1, 2, 3, 4] :=
  reconst_write_roundtrip [1, 2, 3, 4] 0x12345678 (by norm_num) (by decide) (by decide)

/- ### checksum_std (nislib.c lines 42-91)

The two C `long *` output parameters are modelled as `Option Nat` fields:
`none` means the C variable was never assigned (left uninitialized by
`checksum_std`).  `warn` records whether the multiple-match warning was
printed, `oob` whether any buffer access went outside `[0, |B|)`. -/

/-- Offsets visited by `for (bufcur=0; bufcur < siz; bufcur += 4)`. -/
def stdOffs (siz : Nat) : List Nat := (List.range ((siz + 3) / 4)).map (fun i => 4 * i)

/-- The sum/xor fold of `checksum_std`: `sumt += lw; xort ^= lw;` with
`uint32_t` wrap-around on the sum. -/
def foldSX (buf : List Nat) (offs : List Nat) : Nat × Nat :=
  offs.foldl (fun sx off => (u32 (sx.1 + rd32 buf off), sx.2 ^^^ rd32 buf off)) (0, 0)

/-- State of the locate scan of `checksum_std`: the two output slots and
the two match counters. -/
structure ScanSt where
  pcs : Option Nat
  pcx : Option Nat
  ncs : Nat
  ncx : Nat
deriving DecidableEq, Repr

/-- One iteration of the locate scan: on `lw==cks` record the offset and
bump `ckscount`; on `lw==ckx` likewise (both can fire for one word). -/
def scanStep (buf : List Nat) (cks ckx : Nat) (st : ScanSt) (off : Nat) : ScanSt :=
  let lw := rd32 buf off
  let st1 := if lw = cks then { st with pcs := some off, ncs := st.ncs + 1 } else st
  if lw = ckx then { st1 with pcx := some off, ncx := st1.ncx + 1 } else st1

def stdScan (buf : List Nat) (cks ckx : Nat) (offs : List Nat) : ScanSt :=
  offs.foldl (scanStep buf cks ckx) ⟨none, none, 0, 0⟩

/-- Result of `checksum_std`. -/
structure StdRes where
  ret : Int
  p_cks : Option Nat
  p_ckx : Option Nat
  ncs : Nat
  ncx : Nat
  warn : Bool
  oob : Bool
deriving DecidableEq, Repr

/-- nislib.c `checksum_std` (the `buf`, `p_cks`, `p_ckx` pointers of the C
signature are assumed non-null; `siz` is a C `long`). -/
def checksum_std (buf : List Nat) (siz : Int) : StdRes :=
  if siz ≤ 0 then ⟨-1, none, none, 0, 0, false, false⟩
  else
    let offs := stdOffs siz.toNat
    let sx := foldSX buf offs
    let cks := sx.2
    let ckx := sub32 sx.1 (u32 (2 * sx.2))
    let st := stdScan buf cks ckx offs
    let warn := decide (1 < st.ncx ∨ 1 < st.ncs)
    let oob := offs.any (fun off => !okB buf.length (off : Int))
    if st.ncx = 0 ∧ st.ncs = 0 then ⟨-1, st.pcs, st.pcx, st.ncs, st.ncx, warn, oob⟩
    else ⟨0, st.pcs, st.pcx, st.ncs, st.ncx, warn, oob⟩

/-- The additive target actually searched for, `cks = xort`. -/
def stdCksTarget (buf : List Nat) (siz : Int) : Nat := (foldSX buf (stdOffs siz.toNat)).2

/-- The second target actually searched for, `ckx = sumt - 2*xort`. -/
def stdCkxTarget (buf : List Nat) (siz : Int) : Nat :=
  sub32 (foldSX buf (stdOffs siz.toNat)).1 (u32 (2 * (foldSX buf (stdOffs siz.toNat)).2))

/- ### Characterisation of the fold and the locate scan -/

/-- Xor of a list of words. -/
def xorFold (l : List Nat) : Nat := l.foldr (fun a b => a ^^^ b) 0

/-- The aligned offsets whose word equals `v`. -/
def matchOffs (buf : List Nat) (v : Nat) (offs : List Nat) : List Nat :=
  offs.filter (fun o => rd32 buf o = v)

theorem xorFold_lt {l : List Nat} (h : ∀ w ∈ l, w < 2 ^ 32) : xorFold l < 2 ^ 32 := by
  induction l with
  | nil => simp [xorFold]
  | cons w t ih =>
    have hw : w < 2 ^ 32 := h w (by simp)
    have ht : xorFold t < 2 ^ 32 := ih (fun x hx => h x (by simp [hx]))
    simpa [xorFold] using Nat.xor_lt_two_pow hw ht

theorem foldSX_go (buf : List Nat) (offs : List Nat) :
    ∀ s x, s < 2 ^ 32 →
      offs.foldl (fun sx off => (u32 (sx.1 + rd32 buf off), sx.2 ^^^ rd32 buf off)) (s, x) =
        (u32 (s + (offs.map (rd32 buf)).sum), x ^^^ xorFold (offs.map (rd32 buf))) := by
  induction offs with
  | nil =>
    intro s x hs
    simp [xorFold, u32]
    omega
  | cons o t ih =>
    intro s x hs
    simp only [List.foldl_cons, List.map_cons]
    rw [ih _ _ (by simp [u32]; omega)]
    simp only [Prod.mk.injEq]
    constructor
    · simp [u32, Nat.mod_add_mod, List.sum_cons]
      omega
    · simp [xorFold, Nat.xor_assoc]

theorem foldSX_eq (buf : List Nat) (offs : List Nat) :
    foldSX buf offs =
      (u32 ((offs.map (rd32 buf)).sum), xorFold (offs.map (rd32 buf))) := by
  unfold foldSX
  rw [foldSX_go buf offs 0 0 (by norm_num)]
  simp

theorem getLast?_cons_eq_or (o : Nat) (l : List Nat) :
    (o :: l).getLast? = l.getLast?.or (some o) := by
  cases l with
  | nil => rfl
  | cons a t =>
    rw [List.getLast?_cons_cons]
    cases h : (a :: t).getLast? with
    | none => exact absurd (List.getLast?_eq_none_iff.1 h) (by simp)
    | some b => rfl

theorem scanStep_pcs (buf : List Nat) (cks ckx : Nat) (st : ScanSt) (o : Nat) :
    (scanStep buf cks ckx st o).pcs =
      if rd32 buf o = cks then some o else st.pcs := by
  unfold scanStep
  dsimp only
  split <;> split <;> simp_all

theorem scanStep_pcx (buf : List Nat) (cks ckx : Nat) (st : ScanSt) (o : Nat) :
    (scanStep buf cks ckx st o).pcx =
      if rd32 buf o = ckx then some o else st.pcx := by
  unfold scanStep
  dsimp only
  split <;> split <;> simp_all

theorem scanStep_ncs (buf : List Nat) (cks ckx : Nat) (st : ScanSt) (o : Nat) :
    (scanStep buf cks ckx st o).ncs =
      if rd32 buf o = cks then st.ncs + 1 else st.ncs := by
  unfold scanStep
  dsimp only
  split <;> split <;> simp_all

theorem scanStep_ncx (buf : List Nat) (cks ckx : Nat) (st : ScanSt) (o : Nat) :
    (scanStep buf cks ckx st o).ncx =
      if rd32 buf o = ckx then st.ncx + 1 else st.ncx := by
  unfold scanStep
  dsimp only
  split <;> split <;> simp_all

theorem stdScan_go_pcs (buf : List Nat) (cks ckx : Nat) (offs : List Nat) :
    ∀ st : ScanSt, (offs.foldl (scanStep buf cks ckx) st).pcs =
      ((matchOffs buf cks offs).getLast?).or st.pcs := by
  induction offs with
  | nil => intro st; simp [matchOffs]
  | cons o t ih =>
    intro st
    rw [List.foldl_cons, ih]
    by_cases h : rd32 buf o = cks
    · have hm : matchOffs buf cks (o :: t) = o :: matchOffs buf cks t := by
        simp [matchOffs, h]
      rw [hm, getLast?_cons_eq_or, Option.or_assoc]
      congr 1
      simp [scanStep_pcs, h]
    · have hm : matchOffs buf cks (o :: t) = matchOffs buf cks t := by
        simp [matchOffs, h]
      rw [hm]
      congr 1
      simp [scanStep_pcs, h]

theorem stdScan_go_pcx (buf : List Nat) (cks ckx : Nat) (offs : List Nat) :
    ∀ st : ScanSt, (offs.foldl (scanStep buf cks ckx) st).pcx =
      ((matchOffs buf ckx offs).getLast?).or st.pcx := by
  induction offs with
  | nil => intro st; simp [matchOffs]
  | cons o t ih =>
    intro st
    rw [List.foldl_cons, ih]
    by_cases h : rd32 buf o = ckx
    · have hm : matchOffs buf ckx (o :: t) = o :: matchOffs buf ckx t := by
        simp [matchOffs, h]
      rw [hm, getLast?_cons_eq_or, Option.or_assoc]
      congr 1
      simp [scanStep_pcx, h]
    · have hm : matchOffs buf ckx (o :: t) = matchOffs buf ckx t := by
        simp [matchOffs, h]
      rw [hm]
      congr 1
      simp [scanStep_pcx, h]

theorem stdScan_go_ncs (buf : List Nat) (cks ckx : Nat) (offs : List Nat) :
    ∀ st : ScanSt, (offs.foldl (scanStep buf cks ckx) st).ncs =
      st.ncs + (matchOffs buf cks offs).length := by
  induction offs with
  | nil => intro st; simp [matchOffs]
  | cons o t ih =>
    intro st
    rw [List.foldl_cons, ih]
    by_cases h : rd32 buf o = cks
    · have hm : matchOffs buf cks (o :: t) = o :: matchOffs buf cks t := by
        simp [matchOffs, h]
      rw [hm]
      simp [scanStep_ncs, h]
      omega
    · have hm : matchOffs buf cks (o :: t) = matchOffs buf cks t := by
        simp [matchOffs, h]
      rw [hm]
      simp [scanStep_ncs, h]

theorem stdScan_go_ncx (buf : List Nat) (cks ckx : Nat) (offs : List Nat) :
    ∀ st : ScanSt, (offs.foldl (scanStep buf cks ckx) st).ncx =
      st.ncx + (matchOffs buf ckx offs).length := by
  induction offs with
  | nil => intro st; simp [matchOffs]
  | cons o t ih =>
    intro st
    rw [List.foldl_cons, ih]
    by_cases h : rd32 buf o = ckx
    · have hm : matchOffs buf ckx (o :: t) = o :: matchOffs buf ckx t := by
        simp [matchOffs, h]
      rw [hm]
      simp [scanStep_ncx, h]
      omega
    · have hm : matchOffs buf ckx (o :: t) = matchOffs buf ckx t := by
        simp [matchOffs, h]
      rw [hm]
      simp [scanStep_ncx, h]

theorem stdScan_pcs (buf : List Nat) (cks ckx : Nat) (offs : List Nat) :
    (stdScan buf cks ckx offs).pcs = (matchOffs buf cks offs).getLast? := by
  unfold stdScan
  rw [stdScan_go_pcs]
  simp

theorem stdScan_pcx (buf : List Nat) (cks ckx : Nat) (offs : List Nat) :
    (stdScan buf cks ckx offs).pcx = (matchOffs buf ckx offs).getLast? := by
  unfold stdScan
  rw [stdScan_go_pcx]
  simp

theorem stdScan_ncs (buf : List Nat) (cks ckx : Nat) (offs : List Nat) :
    (stdScan buf cks ckx offs).ncs = (matchOffs buf cks offs).length := by
  unfold stdScan
  rw [stdScan_go_ncs]
  simp

theorem stdScan_ncx (buf : List Nat) (cks ckx : Nat) (offs : List Nat) :
    (stdScan buf cks ckx offs).ncx = (matchOffs buf ckx offs).length := by
  unfold stdScan
  rw [stdScan_go_ncx]
  simp

/-- A recorded scan output is a matching offset. -/
theorem matchOffs_of_getLast? {buf : List Nat} {v : Nat} {offs : List Nat} {o : Nat}
    (h : (matchOffs buf v offs).getLast? = some o) : o ∈ offs ∧ rd32 buf o = v := by
  have hm := List.mem_of_getLast?_eq_some h
  unfold matchOffs at hm
  have := List.mem_filter.1 hm
  exact ⟨this.1, by simpa using this.2⟩

/-- If some offset matches, the scan records one. -/
theorem matchOffs_getLast?_isSome {buf : List Nat} {v : Nat} {offs : List Nat} {o : Nat}
    (ho : o ∈ offs) (hv : rd32 buf o = v) : (matchOffs buf v offs).getLast?.isSome := by
  have hm : o ∈ matchOffs buf v offs := by
    unfold matchOffs
    exact List.mem_filter.2 ⟨ho, by simpa using hv⟩
  cases hl : (matchOffs buf v offs).getLast? with
  | none =>
    rw [List.getLast?_eq_none_iff] at hl
    rw [hl] at hm
    simp at hm
  | some a => simp

theorem checksum_std_p_cks (buf : List Nat) {siz : Int} (hpos : 0 < siz) :
    (checksum_std buf siz).p_cks =
      (matchOffs buf (stdCksTarget buf siz) (stdOffs siz.toNat)).getLast? := by
  unfold checksum_std
  rw [if_neg (by omega)]
  dsimp only
  split <;> exact stdScan_pcs _ _ _ _

theorem checksum_std_p_ckx (buf : List Nat) {siz : Int} (hpos : 0 < siz) :
    (checksum_std buf siz).p_ckx =
      (matchOffs buf (stdCkxTarget buf siz) (stdOffs siz.toNat)).getLast? := by
  unfold checksum_std
  rw [if_neg (by omega)]
  dsimp only
  split <;> exact stdScan_pcx _ _ _ _

theorem checksum_std_ncs (buf : List Nat) {siz : Int} (hpos : 0 < siz) :
    (checksum_std buf siz).ncs =
      (matchOffs buf (stdCksTarget buf siz) (stdOffs siz.toNat)).length := by
  unfold checksum_std
  rw [if_neg (by omega)]
  dsimp only
  split <;> exact stdScan_ncs _ _ _ _

theorem checksum_std_ncx (buf : List Nat) {siz : Int} (hpos : 0 < siz) :
    (checksum_std buf siz).ncx =
      (matchOffs buf (stdCkxTarget buf siz) (stdOffs siz.toNat)).length := by
  unfold checksum_std
  rw [if_neg (by omega)]
  dsimp only
  split <;> exact stdScan_ncx _ _ _ _

theorem checksum_std_warn (buf : List Nat) {siz : Int} (hpos : 0 < siz) :
    (checksum_std buf siz).warn = true ↔
      (1 < (matchOffs buf (stdCkxTarget buf siz) (stdOffs siz.toNat)).length ∨
       1 < (matchOffs buf (stdCksTarget buf siz) (stdOffs siz.toNat)).length) := by
  unfold checksum_std stdCkxTarget stdCksTarget
  rw [if_neg (by omega)]
  dsimp only
  split <;> simp [stdScan_ncs, stdScan_ncx]

theorem checksum_std_ret (buf : List Nat) {siz : Int} (hpos : 0 < siz) :
    (checksum_std buf siz).ret =
      if (matchOffs buf (stdCkxTarget buf siz) (stdOffs siz.toNat)).length = 0 ∧
         (matchOffs buf (stdCksTarget buf siz) (stdOffs siz.toNat)).length = 0
      then -1 else 0 := by
  unfold checksum_std stdCkxTarget stdCksTarget
  rw [if_neg (by omega)]
  dsimp only
  split <;> rename_i h
  · rw [stdScan_ncx, stdScan_ncs] at h
    rw [if_pos h]
  · rw [stdScan_ncx, stdScan_ncs] at h
    rw [if_neg h]

/-- C5: for a buffer whose length is a positive multiple of 4,
`checksum_std` folds all big-endian words into the wrapping sum `sumt` and
xor `xort`, derives the candidate checksums `cks = xort` and
`ckx = sumt - 2*xort` (mod `2^32`), and those two values are exactly what
the locate scan then searches for: any offset it reports holds a word
equal to the corresponding derived value. -/
theorem checksum_std_derives_targets (buf : List Nat) (siz : Int)
    (hpos : 0 < siz) (hlen : (buf.length : Int) = siz) (hmul : buf.length % 4 = 0)
    (hw : Wf8 buf) :
    stdCksTarget buf siz = xorFold ((stdOffs siz.toNat).map (rd32 buf)) ∧
    (stdCkxTarget buf siz : Int) =
      ((((stdOffs siz.toNat).map (rd32 buf)).sum : Int) -
        2 * (xorFold ((stdOffs siz.toNat).map (rd32 buf)) : Int)) % (2 ^ 32) ∧
    (∀ o, (checksum_std buf siz).p_cks = some o → rd32 buf o = stdCksTarget buf siz) ∧
    (∀ o, (checksum_std buf siz).p_ckx = some o → rd32 buf o = stdCkxTarget buf siz) := by
  refine ⟨?_, ?_, ?_, ?_⟩
  · unfold stdCksTarget
    rw [foldSX_eq]
  · unfold stdCkxTarget
    rw [foldSX_eq]
    dsimp only
    unfold sub32 u32
    omega
  · intro o ho
    rw [checksum_std_p_cks buf hpos] at ho
    exact (matchOffs_of_getLast? ho).2
  · intro o ho
    rw [checksum_std_p_ckx buf hpos] at ho
    exact (matchOffs_of_getLast? ho).2

/-- Witness for `checksum_std_derives_targets` on an 8-byte buffer. -/
theorem checksum_std_derives_targets_witness :
    stdCksTarget [0, 0, 0, 1, 0, 0, 0, 2] 8 =
      xorFold ((stdOffs (8 : Int).toNat).map (rd32 [0, 0, 0, 1, 0, 0, 0, 2])) ∧
    (stdCksTarget [0, 0, 0, 1, 0, 0, 0, 2] 8 : Nat) = 3 := by
  have h := checksum_std_derives_targets [0, 0, 0, 1, 0, 0, 0, 2] 8
    (by norm_num) (by norm_num) (by norm_num) (by decide)
  exact ⟨h.1, by decide⟩

/-- C6 counterexample: on the image with words `1,1,0,1` the derived `cks`
value is 1, which occurs at aligned offsets 0, 4 and 12; `checksum_std`
reports offset 12 — the last match — although the smallest matching
aligned offset is 0. -/
theorem checksum_std_first_match_cex :
    (checksum_std [0, 0, 0, 1, 0, 0, 0, 1, 0, 0, 0, 0, 0, 0, 0, 1] 16).p_cks = some 12 ∧
    rd32 [0, 0, 0, 1, 0, 0, 0, 1, 0, 0, 0, 0, 0, 0, 0, 1] 0 =
      stdCksTarget [0, 0, 0, 1, 0, 0, 0, 1, 0, 0, 0, 0, 0, 0, 0, 1] 16 ∧
    (0 : Nat) ∈ stdOffs (16 : Int).toNat ∧
    (12 : Nat) ≠ 0 := by decide

/-- C6 (amended): when several aligned words equal a derived checksum
value, `checksum_std` reports the LAST matching aligned offset in the
corresponding output, and emits the multiple-match warning exactly when
one of the two values matches more than once. -/
theorem checksum_std_last_match (buf : List Nat) (siz : Int) (hpos : 0 < siz) :
    (checksum_std buf siz).p_cks =
      (matchOffs buf (stdCksTarget buf siz) (stdOffs siz.toNat)).getLast? ∧
    (checksum_std buf siz).p_ckx =
      (matchOffs buf (stdCkxTarget buf siz) (stdOffs siz.toNat)).getLast? ∧
    ((checksum_std buf siz).warn = true ↔
      1 < (matchOffs buf (stdCkxTarget buf siz) (stdOffs siz.toNat)).length ∨
      1 < (matchOffs buf (stdCksTarget buf siz) (stdOffs siz.toNat)).length) :=
  ⟨checksum_std_p_cks buf hpos, checksum_std_p_ckx buf hpos, checksum_std_warn buf hpos⟩

/-- Witness for `checksum_std_last_match` on the triple-match image. -/
theorem checksum_std_last_match_witness :
    (checksum_std [0, 0, 0, 1, 0, 0, 0, 1, 0, 0, 0, 0, 0, 0, 0, 2] 16).p_cks =
      (matchOffs [0, 0, 0, 1, 0, 0, 0, 1, 0, 0, 0, 0, 0, 0, 0, 2]
        (stdCksTarget [0, 0, 0, 1, 0, 0, 0, 1, 0, 0, 0, 0, 0, 0, 0, 2] 16)
        (stdOffs (16 : Int).toNat)).getLast? ∧
    (checksum_std [0, 0, 0, 1, 0, 0, 0, 1, 0, 0, 0, 0, 0, 0, 0, 2] 16).p_ckx =
      (matchOffs [0, 0, 0, 1, 0, 0, 0, 1, 0, 0, 0, 0, 0, 0, 0, 2]
        (stdCkxTarget [0, 0, 0, 1, 0, 0, 0, 1, 0, 0, 0, 0, 0, 0, 0, 2] 16)
        (stdOffs (16 : Int).toNat)).getLast? ∧
    ((checksum_std [0, 0, 0, 1, 0, 0, 0, 1, 0, 0, 0, 0, 0, 0, 0, 2] 16).warn = true ↔
      1 < (matchOffs [0, 0, 0, 1, 0, 0, 0, 1, 0, 0, 0, 0, 0, 0, 0, 2]
        (stdCkxTarget [0, 0, 0, 1, 0, 0, 0, 1, 0, 0, 0, 0, 0, 0, 0, 2] 16)
        (stdOffs (16 : Int).toNat)).length ∨
      1 < (matchOffs [0, 0, 0, 1, 0, 0, 0, 1, 0, 0, 0, 0, 0, 0, 0, 2]
        (stdCksTarget [0, 0, 0, 1, 0, 0, 0, 1, 0, 0, 0, 0, 0, 0, 0, 2] 16)
        (stdOffs (16 : Int).toNat)).length) :=
  checksum_std_last_match [0, 0, 0, 1, 0, 0, 0, 1, 0, 0, 0, 0, 0, 0, 0, 2] 16 (by norm_num)

/-- C7 counterexample: on the image with words `1,0,0,0,0` only the
derived `cks` value (1) is found; `checksum_std` nevertheless returns
success (0) while the second output `p_ckx` was never assigned. -/
theorem checksum_std_partial_output_cex :
    (checksum_std [0, 0, 0, 1, 0, 0, 0, 0, 0, 0, 0, 0, 0, 0, 0, 0, 0, 0, 0, 0] 20).ret = 0 ∧
    (checksum_std [0, 0, 0, 1, 0, 0, 0, 0, 0, 0, 0, 0, 0, 0, 0, 0, 0, 0, 0, 0] 20).p_ckx =
      none := by decide

/-- C7 (amended): `checksum_std` returns an error (-1) exactly when the
scan finds zero matching words for BOTH derived values; on success at
least one output has been assigned, and any assigned output holds an
aligned offset whose word equals its derived value.  An output whose
value was never matched is left unassigned even on success. -/
theorem checksum_std_ret_amended (buf : List Nat) (siz : Int) (hpos : 0 < siz) :
    ((checksum_std buf siz).ret ≠ 0 ↔
      matchOffs buf (stdCksTarget buf siz) (stdOffs siz.toNat) = [] ∧
      matchOffs buf (stdCkxTarget buf siz) (stdOffs siz.toNat) = []) ∧
    ((checksum_std buf siz).ret = 0 →
      (checksum_std buf siz).p_cks.isSome ∨ (checksum_std buf siz).p_ckx.isSome) ∧
    (∀ o, (checksum_std buf siz).p_cks = some o →
      o ∈ stdOffs siz.toNat ∧ rd32 buf o = stdCksTarget buf siz) ∧
    (∀ o, (checksum_std buf siz).p_ckx = some o →
      o ∈ stdOffs siz.toNat ∧ rd32 buf o = stdCkxTarget buf siz) := by
  refine ⟨?_, ?_, ?_, ?_⟩
  · rw [checksum_std_ret buf hpos]
    split <;> rename_i h
    · simp only [List.length_eq_zero] at h
      simp [h]
    · simp only [List.length_eq_zero] at h
      constructor
      · intro hcon
        simp at hcon
      · intro hboth
        exact absurd ⟨by simp [hboth.2], by simp [hboth.1]⟩ h
  · intro hret
    rw [checksum_std_ret buf hpos] at hret
    rw [checksum_std_p_cks buf hpos, checksum_std_p_ckx buf hpos]
    by_cases hs : matchOffs buf (stdCksTarget buf siz) (stdOffs siz.toNat) = []
    · by_cases hx : matchOffs buf (stdCkxTarget buf siz) (stdOffs siz.toNat) = []
      · rw [if_pos ⟨by simp [hx], by simp [hs]⟩] at hret
        simp at hret
      · right
        cases hl : (matchOffs buf (stdCkxTarget buf siz) (stdOffs siz.toNat)).getLast? with
        | none => exact absurd (List.getLast?_eq_none_iff.1 hl) hx
        | some a => simp
    · left
      cases hl : (matchOffs buf (stdCksTarget buf siz) (stdOffs siz.toNat)).getLast? with
      | none => exact absurd (List.getLast?_eq_none_iff.1 hl) hs
      | some a => simp
  · intro o ho
    rw [checksum_std_p_cks buf hpos] at ho
    exact matchOffs_of_getLast? ho
  · intro o ho
    rw [checksum_std_p_ckx buf hpos] at ho
    exact matchOffs_of_getLast? ho

/-- Witness for `checksum_std_ret_amended` on a 20-byte image in which
both derived values occur. -/
theorem checksum_std_ret_amended_witness :
    ((checksum_std [0, 0, 0, 2, 0, 0, 0, 0, 0, 0, 0, 1, 0, 0, 0, 1, 0, 0, 0, 0] 20).ret ≠ 0 ↔
      matchOffs [0, 0, 0, 2, 0, 0, 0, 0, 0, 0, 0, 1, 0, 0, 0, 1, 0, 0, 0, 0]
        (stdCksTarget [0, 0, 0, 2, 0, 0, 0, 0, 0, 0, 0, 1, 0, 0, 0, 1, 0, 0, 0, 0] 20)
        (stdOffs (20 : Int).toNat) = [] ∧
      matchOffs [0, 0, 0, 2, 0, 0, 0, 0, 0, 0, 0, 1, 0, 0, 0, 1, 0, 0, 0, 0]
        (stdCkxTarget [0, 0, 0, 2, 0, 0, 0, 0, 0, 0, 0, 1, 0, 0, 0, 1, 0, 0, 0, 0] 20)
        (stdOffs (20 : Int).toNat) = []) ∧
    ((checksum_std [0, 0, 0, 2, 0, 0, 0, 0, 0, 0, 0, 1, 0, 0, 0, 1, 0, 0, 0, 0] 20).ret = 0 →
      (checksum_std [0, 0, 0, 2, 0, 0, 0, 0, 0, 0, 0, 1, 0, 0, 0, 1, 0, 0, 0, 0] 20).p_cks.isSome ∨
      (checksum_std [0, 0, 0, 2, 0, 0, 0, 0, 0, 0, 0, 1, 0, 0, 0, 1, 0, 0, 0, 0] 20).p_ckx.isSome) ∧
    (∀ o, (checksum_std [0, 0, 0, 2, 0, 0, 0, 0, 0, 0, 0, 1, 0, 0, 0, 1, 0, 0, 0, 0] 20).p_cks = some o →
      o ∈ stdOffs (20 : Int).toNat ∧
      rd32 [0, 0, 0, 2, 0, 0, 0, 0, 0, 0, 0, 1, 0, 0, 0, 1, 0, 0, 0, 0] o =
        stdCksTarget [0, 0, 0, 2, 0, 0, 0, 0, 0, 0, 0, 1, 0, 0, 0, 1, 0, 0, 0, 0] 20) ∧
    (∀ o, (checksum_std [0, 0, 0, 2, 0, 0, 0, 0, 0, 0, 0, 1, 0, 0, 0, 1, 0, 0, 0, 0] 20).p_ckx = some o →
      o ∈ stdOffs (20 : Int).toNat ∧
      rd32 [0, 0, 0, 2, 0, 0, 0, 0, 0, 0, 0, 1, 0, 0, 0, 1, 0, 0, 0, 0] o =
        stdCkxTarget [0, 0, 0, 2, 0, 0, 0, 0, 0, 0, 0, 1, 0, 0, 0, 1, 0, 0, 0, 0] 20) :=
  checksum_std_ret_amended [0, 0, 0, 2, 0, 0, 0, 0, 0, 0, 0, 1, 0, 0, 0, 1, 0, 0, 0, 0] 20
    (by norm_num)

/- ### checksum_fix (nislib.c lines 98-216)

The bit-per-bit solver loop (lines 153-199) is embedded as `fixLoop n ds
dx a b carry`, where `n - 1` is the current value of `bitcur`, so the call
corresponding to `for (bitcur = 31; ...)` is `fixLoop 32 ...`.  Two C
subtleties are modelled as the C executes them, not as the author likely
intended them:
* `carry = ~sn;` (line 184) assigns the INT bitwise complement of the
  `bool` `sn` (0 or 1) to a `bool`; `~0 = -1` and `~1 = -2` are both
  nonzero, so `carry` becomes 1 regardless of `sn`;
* in the fallback branch `bitcur = 31; continue;` re-enters the loop
  AFTER the `bitcur--` update, i.e. at bit 30.
The fallback branch itself (lines 167-179) is dead code: `return;` on
line 166 precedes it.  `fixLoop` is the loop as written (it aborts).
`fixLoopPolicy` is the same loop with that one `return` elided, following
the spec (§9) instruction to treat the MSB-backoff branch as the
specified policy. -/

inductive LoopRes where
  | abort
  | done (a b : Nat)
deriving DecidableEq, Repr

/-- The solver loop exactly as written: on `xn = 1`, `carry = 1`,
`sn = 1` it prints and returns (`.abort`). -/
def fixLoop : Nat → Nat → Nat → Nat → Nat → Bool → LoopRes
  | 0, _, _, a, b, _ => .done a b
  | n + 1, ds, dx, a, b, carry =>
    if dx.testBit n then
      if carry then
        if ds.testBit n then .abort
        else fixLoop n ds dx (a ||| 1 <<< n) b true
      else
        -- carry = ~sn : both ~0 and ~1 are nonzero ints, so carry := 1
        fixLoop n ds dx (a ||| 1 <<< n) b true
    else
      fixLoop n ds dx (a ||| (if carry then 1 <<< n else 0))
        (b ||| (if carry then 1 <<< n else 0)) (ds.testBit n)

inductive PolicyRes where
  | fatal
  | done (a b mang : Nat)
deriving DecidableEq, Repr

set_option maxRecDepth 4000

/-- Modelled from the spec: the solver loop with the `return` on nislib.c
line 166 elided, so that the mang-decrement fallback of lines 167-179
(dead code in the source) runs as the spec's §9 note instructs
("treat the MSB-backoff branch as a specified, testable policy").
`mang -= 1` is a `uint32_t` decrement, and `bitcur = 31; continue;`
resumes at bit 30 because the `for` update runs after the `continue`. -/
def fixLoopPolicy (n ds dx mang a b : Nat) (carry : Bool) : PolicyRes :=
  match n with
  | 0 => .done a b mang
  | n + 1 =>
    if dx.testBit n then
      if carry then
        if ds.testBit n then
          if mang = 1 then .fatal
          else
            fixLoopPolicy 31 (u32 (ds + 1))
              (dx ^^^ u32 ((mang + 2 ^ 32 - 1) % 2 ^ 32 + 1) ^^^ ((mang + 2 ^ 32 - 1) % 2 ^ 32))
              ((mang + 2 ^ 32 - 1) % 2 ^ 32) 0 0 false
        else fixLoopPolicy n ds dx mang (a ||| 1 <<< n) b true
      else fixLoopPolicy n ds dx mang (a ||| 1 <<< n) b true
    else
      fixLoopPolicy n ds dx mang (a ||| (if carry then 1 <<< n else 0))
        (b ||| (if carry then 1 <<< n else 0)) (ds.testBit n)
termination_by ((if mang = 0 then 2 ^ 32 - 1 else mang - 1), n)
decreasing_by
  all_goals simp_wf
  · refine Prod.Lex.left _ _ ?_
    rename_i hm1
    split <;> split <;> omega
  · exact Prod.Lex.right _ (by omega)
  · exact Prod.Lex.right _ (by omega)
  · exact Prod.Lex.right _ (by omega)

/-- Accumulated low bits produced by the solver loop when the xor target
is 0: bit `n-1` is the incoming carry, bit `i` below it is sum-target
bit `i+1`. -/
def lowBits : Nat → Nat → Bool → Nat
  | 0, _, _ => 0
  | n + 1, ds, c => (if c then 1 <<< n else 0) ||| lowBits n ds (ds.testBit n)

theorem lowBits_lt : ∀ (n : Nat) (ds : Nat) (c : Bool), lowBits n ds c < 2 ^ n := by
  intro n
  induction n with
  | zero => intro ds c; simp [lowBits]
  | succ n ih =>
    intro ds c
    rw [lowBits]
    have hpos : 0 < (2 : Nat) ^ n := Nat.two_pow_pos n
    have h1 : (if c then 1 <<< n else 0) < 2 ^ (n + 1) := by
      split
      · rw [Nat.shiftLeft_eq, pow_succ]
        omega
      · positivity
    have h2 : lowBits n ds (ds.testBit n) < 2 ^ (n + 1) := by
      have := ih ds (ds.testBit n)
      have hp : (2 : Nat) ^ n < 2 ^ (n + 1) := by
        rw [pow_succ]
        omega
      omega
    exact Nat.or_lt_two_pow h1 h2

/-- With a zero xor target the solver loop always completes, or-ing the
same `lowBits` pattern into both accumulators. -/
theorem fixLoop_dx_zero (n : Nat) (ds : Nat) :
    ∀ a b c, fixLoop n ds 0 a b c =
      .done (a ||| lowBits n ds c) (b ||| lowBits n ds c) := by
  induction n with
  | zero =>
    intro a b c
    simp [fixLoop, lowBits]
  | succ n ih =>
    intro a b c
    rw [fixLoop]
    simp only [Nat.zero_testBit, Bool.false_eq_true, if_false]
    rw [ih]
    rw [lowBits]
    rw [Nat.or_assoc, Nat.or_assoc]

theorem lowBits_val : ∀ (n : Nat), 1 ≤ n → ∀ (ds : Nat) (c : Bool),
    lowBits n ds c = (ds % 2 ^ n) / 2 + (if c then 2 ^ (n - 1) else 0) := by
  intro n
  induction n with
  | zero => omega
  | succ n ih =>
    intro _ ds c
    by_cases hn : n = 0
    · subst hn
      cases c <;> simp [lowBits, Nat.shiftLeft_eq]
    · have hn1 : 1 ≤ n := by omega
      have hA : (2 : Nat) ^ n = 2 * 2 ^ (n - 1) := by
        conv => lhs; rw [show n = (n - 1) + 1 by omega]
        rw [pow_succ]
        ring
      have hmod : ds % 2 ^ (n + 1) = ds % 2 ^ n + 2 ^ n * (ds / 2 ^ n % 2) := by
        rw [pow_succ, Nat.mod_mul]
      have htb := @Nat.testBit_to_div_mod n ds
      have hL : lowBits n ds (ds.testBit n) = (ds % 2 ^ (n + 1)) / 2 := by
        rw [ih hn1 ds (ds.testBit n)]
        cases h : ds.testBit n <;> rw [h] at htb <;> simp at htb
        · have hdm : ds / 2 ^ n % 2 = 0 := by omega
          rw [hdm] at hmod
          simp only [Bool.false_eq_true, if_false]
          omega
        · rw [htb] at hmod
          simp only [if_pos]
          omega
      have hlt : (ds % 2 ^ (n + 1)) / 2 < 2 ^ n := by
        have h1 : ds % 2 ^ (n + 1) < 2 ^ (n + 1) := Nat.mod_lt _ (by positivity)
        have h2 : (2 : Nat) ^ (n + 1) = 2 * 2 ^ n := by rw [pow_succ]; ring
        omega
      rw [lowBits, hL]
      simp only [Nat.add_sub_cancel]
      cases c
      · simp
      · simp only [if_pos]
        have hor : (1 <<< n : Nat) ||| (ds % 2 ^ (n + 1)) / 2
            = 2 ^ n + (ds % 2 ^ (n + 1)) / 2 := by
          have h := Nat.mul_add_lt_is_or hlt 1
          rw [Nat.shiftLeft_eq]
          simpa using h.symm
        rw [hor]
        omega

/-- The complete solve with xor target 0: both corrections are `ds / 2`. -/
theorem fixLoop_solves {ds : Nat} (hds : ds < 2 ^ 32) :
    fixLoop 32 ds 0 0 0 false = .done (ds / 2) (ds / 2) := by
  rw [fixLoop_dx_zero]
  rw [lowBits_val 32 (by norm_num) ds false]
  simp only [Nat.zero_or, Bool.false_eq_true, if_false, Nat.add_zero]
  congr 1 <;> omega

/-- C2 counterexample: take sum target `0x40000000`, xor target
`0xC0000000`.  At bit 31 the loop sets carry to 1; at bit 30 it meets
xor-target bit 1, incoming carry 1 and sum-target bit 1 — and instead of
decrementing `mang`, adjusting the targets and restarting (the claim's
backoff), it returns immediately: the backoff code sits after an
unconditional `return` and never runs, and `mang` is not touched. -/
theorem fixLoop_backoff_cex :
    fixLoop 32 0x40000000 0xC0000000 0 0 false = .abort := by decide

/-- C2 (amended): at a bit position with xor-target bit 1, incoming carry
1 and sum-target bit 1 the solver as written gives up immediately (the
`return` precedes the fallback, which is dead code).  Treated as the
specified policy (that `return` elided), the fallback decrements `mang`
by 1 (a `uint32_t` decrement), adds 1 to the additive target, xors the
xor target with `(mang+1)^mang`, clears `a`, `b` and the carry — but
resumes from bit 30, not bit 31, because the `for` update runs after
`continue` — and it gives up fatally exactly when `mang = 1`. -/
theorem fixLoop_backoff_amended (n ds dx mang a b : Nat)
    (hx : dx.testBit n = true) (hs : ds.testBit n = true)
    (hm2 : 2 ≤ mang) (hmlt : mang < 2 ^ 32) :
    fixLoop (n + 1) ds dx a b true = .abort ∧
    fixLoopPolicy (n + 1) ds dx mang a b true =
      fixLoopPolicy 31 (u32 (ds + 1)) (dx ^^^ mang ^^^ (mang - 1)) (mang - 1) 0 0 false ∧
    fixLoopPolicy (n + 1) ds dx 1 a b true = .fatal := by
  refine ⟨?_, ?_, ?_⟩
  · rw [fixLoop]
    rw [if_pos hx, if_pos rfl, if_pos hs]
  · rw [fixLoopPolicy]
    rw [if_pos hx, if_pos rfl, if_pos hs, if_neg (by omega)]
    have hdec : (mang + 2 ^ 32 - 1) % 2 ^ 32 = mang - 1 := by omega
    have hinc : u32 ((mang + 2 ^ 32 - 1) % 2 ^ 32 + 1) = mang := by
      unfold u32
      omega
    rw [hinc, hdec]
  · rw [fixLoopPolicy]
    rw [if_pos hx, if_pos rfl, if_pos hs, if_pos rfl]

/-- Witness for `fixLoop_backoff_amended` at bit 30 with `mang = 5`. -/
theorem fixLoop_backoff_amended_witness :
    fixLoop 31 0x40000000 0xC0000000 0x80000000 0 true = .abort ∧
    fixLoopPolicy 31 0x40000000 0xC0000000 5 0x80000000 0 true =
      fixLoopPolicy 31 (u32 (0x40000000 + 1)) (0xC0000000 ^^^ 5 ^^^ 4) 4 0 0 false ∧
    fixLoopPolicy 31 0x40000000 0xC0000000 1 0x80000000 0 true = .fatal :=
  fixLoop_backoff_amended 30 0x40000000 0xC0000000 5 0x80000000 0
    (by decide) (by decide) (by norm_num) (by norm_num)

/- ### The assembled checksum_fix -/

inductive FixExit where
  | badParams
  | infeasible
  | done
deriving DecidableEq, Repr

/-- Result of `checksum_fix`: the final buffer, which exit was taken, the
three correction values written (0 when not reached), whether the final
self-verification succeeded, and whether any access was out of bounds. -/
structure FixRes where
  buf : List Nat
  exit : FixExit
  a : Nat
  b : Nat
  mang : Nat
  verified : Bool
  oob : Bool
deriving DecidableEq, Repr

/-- Step 1 of `checksum_fix`: the three zero-writes at `p_cs`, `p_cx`,
`p_mang` (nislib.c lines 116-118). -/
def fixZeroed (buf : List Nat) (p_cs p_cx p_mang : Int) : List Nat :=
  wr32i (wr32i (wr32i buf p_cs 0) p_cx 0) p_mang 0

/-- Step 2 of `checksum_fix`: the sum/xor fold that skips the offsets
`p_cks` and `p_ckx` (lines 121-129).  The loop visits the same offsets as
`checksum_std`. -/
def fixFold (buf : List Nat) (siz : Nat) (pk px : Int) : Nat × Nat :=
  (stdOffs siz).foldl
    (fun sx (off : Nat) =>
      if (off : Int) = pk ∨ (off : Int) = px then sx
      else (u32 (sx.1 + rd32 buf off), sx.2 ^^^ rd32 buf off)) (0, 0)

/-- nislib.c `checksum_fix` (lines 98-216).  All seven C parameters are
`long`s; the `buf` pointer is assumed non-null.  The final verification
(lines 204-213) reads `buf[ocs]`/`buf[ocx]` even when `checksum_std` left
those variables uninitialized; such a read is modelled as value 0 with
the `oob` flag raised. -/
def checksum_fix (buf : List Nat) (siz p_cks p_ckx p_cs p_cx p_mang : Int) : FixRes :=
  if siz ≤ 0 ∨ siz % 4 ≠ 0 ∨ siz ≤ p_cks ∨ siz ≤ p_ckx ∨ siz ≤ p_cs ∨ siz ≤ p_cx then
    ⟨buf, .badParams, 0, 0, 0, false, false⟩
  else
    let len := buf.length
    let cks := rd32i buf p_cks
    let ckx := rd32i buf p_ckx
    let buf1 := fixZeroed buf p_cs p_cx p_mang
    let oob1 := !okB len p_cks || !okB len p_ckx || !okB len p_cs || !okB len p_cx ||
      !okB len p_mang ||
      (stdOffs siz.toNat).any (fun off =>
        if (off : Int) = p_cks ∨ (off : Int) = p_ckx then false else !okB len (off : Int))
    let sx := fixFold buf1 siz.toNat p_cks p_ckx
    let ds1 := sub32 cks sx.1
    let dx1 := ckx ^^^ sx.2
    let mang := dx1
    let ds2 := sub32 ds1 mang
    let dx2 := dx1 ^^^ mang
    match fixLoop 32 ds2 dx2 0 0 false with
    | .abort => ⟨buf1, .infeasible, 0, 0, 0, false, oob1⟩
    | .done a b =>
      let buf2 := wr32i (wr32i (wr32i buf1 p_cs a) p_cx b) p_mang mang
      let sr := checksum_std buf2 siz
      let vs := match sr.p_cks with | some o => rd32 buf2 o | none => 0
      let vx := match sr.p_ckx with | some o => rd32 buf2 o | none => 0
      let oob2 := oob1 || sr.oob ||
        (match sr.p_cks with | some o => !okB len (o : Int) | none => true) ||
        (match sr.p_ckx with | some o => !okB len (o : Int) | none => true)
      ⟨buf2, .done, a, b, mang, decide (vs = cks ∧ vx = ckx), oob2⟩

/- ### Structure of the visited offsets -/

theorem stdOffs_nodup (n : Nat) : (stdOffs n).Nodup := by
  unfold stdOffs
  exact List.Nodup.map (fun a b h => by omega) (List.nodup_range _)

theorem mem_stdOffs {n o : Nat} : o ∈ stdOffs n ↔ ∃ i, i < (n + 3) / 4 ∧ o = 4 * i := by
  unfold stdOffs
  simp [List.mem_range]
  constructor
  · rintro ⟨i, hi, rfl⟩
    exact ⟨i, hi, rfl⟩
  · rintro ⟨i, hi, rfl⟩
    exact ⟨i, hi, rfl⟩

theorem mem_stdOffs_of {n o : Nat} (hal : 4 ∣ o) (ho : o + 4 ≤ n) : o ∈ stdOffs n := by
  rw [mem_stdOffs]
  exact ⟨o / 4, by omega, by omega⟩

theorem stdOffs_inbounds {n o : Nat} (h : o ∈ stdOffs n) (hm : n % 4 = 0) :
    o + 4 ≤ n ∧ 4 ∣ o := by
  rw [mem_stdOffs] at h
  obtain ⟨i, hi, rfl⟩ := h
  omega

/- ### Exchanging one word of a fold -/

theorem sum_map_update1 {l : List Nat} {p : Nat} (hnd : l.Nodup) (hp : p ∈ l)
    {f g : Nat → Nat} (hfg : ∀ x ∈ l, x ≠ p → f x = g x) :
    (l.map f).sum + g p = (l.map g).sum + f p := by
  induction l with
  | nil => simp at hp
  | cons q t ih =>
    have hnd' : t.Nodup := (List.nodup_cons.1 hnd).2
    have hqt : q ∉ t := (List.nodup_cons.1 hnd).1
    rcases List.mem_cons.1 hp with rfl | hpt
    · have hmap : t.map f = t.map g :=
        List.map_congr_left (fun x hx => hfg x (by simp [hx]) (fun hcon => hqt (hcon ▸ hx)))
      simp [hmap]
      omega
    · have hq : f q = g q := hfg q (by simp) (fun hcon => hqt (hcon ▸ hpt))
      have := ih hnd' hpt (fun x hx hxp => hfg x (by simp [hx]) hxp)
      simp only [List.map_cons, List.sum_cons]
      omega

theorem xor_left_comm (a b c : Nat) : a ^^^ (b ^^^ c) = b ^^^ (a ^^^ c) := by
  rw [← Nat.xor_assoc, Nat.xor_comm a b, Nat.xor_assoc]

theorem xor_map_update1 {l : List Nat} {p : Nat} (hnd : l.Nodup) (hp : p ∈ l)
    {f g : Nat → Nat} (hfg : ∀ x ∈ l, x ≠ p → f x = g x) :
    xorFold (l.map f) ^^^ g p = xorFold (l.map g) ^^^ f p := by
  induction l with
  | nil => simp at hp
  | cons q t ih =>
    have hnd' : t.Nodup := (List.nodup_cons.1 hnd).2
    have hqt : q ∉ t := (List.nodup_cons.1 hnd).1
    rcases List.mem_cons.1 hp with rfl | hpt
    · have hmap : t.map f = t.map g :=
        List.map_congr_left (fun x hx => hfg x (by simp [hx]) (fun hcon => hqt (hcon ▸ hx)))
      simp only [List.map_cons, hmap]
      show (f p ^^^ xorFold (t.map g)) ^^^ g p = (g p ^^^ xorFold (t.map g)) ^^^ f p
      rw [Nat.xor_assoc, Nat.xor_assoc, Nat.xor_comm (xorFold (t.map g)) (g p),
        Nat.xor_comm (xorFold (t.map g)) (f p), ← Nat.xor_assoc, ← Nat.xor_assoc,
        Nat.xor_comm (f p) (g p)]
    · have hq : f q = g q := hfg q (by simp) (fun hcon => hqt (hcon ▸ hpt))
      have hih := ih hnd' hpt (fun x hx hxp => hfg x (by simp [hx]) hxp)
      simp only [List.map_cons]
      show (f q ^^^ xorFold (t.map f)) ^^^ g p = (g q ^^^ xorFold (t.map g)) ^^^ f p
      rw [hq, Nat.xor_assoc, Nat.xor_assoc, hih]

/-- Writing word `v` at one visited offset exchanges that word in the
additive fold. -/
theorem sum_words_wr32 (buf : List Nat) {offs : List Nat} (hnd : offs.Nodup)
    {p : Nat} (hp : p ∈ offs) (hal : ∀ o ∈ offs, 4 ∣ o)
    (hplen : p + 4 ≤ buf.length) (v : Nat) (hv : v < 2 ^ 32) :
    (offs.map (rd32 (wr32 buf p v))).sum + rd32 buf p =
      (offs.map (rd32 buf)).sum + v := by
  have h : (offs.map (rd32 (wr32 buf p v))).sum + rd32 buf p =
      (offs.map (rd32 buf)).sum + rd32 (wr32 buf p v) p :=
    sum_map_update1 hnd hp (fun x hx hxp => by
      have hx4 := hal x hx
      have hp4 := hal p hp
      exact rd32_wr32_other (by omega) (by omega) v)
  rw [rd32_wr32_same hplen hv] at h
  exact h

/-- Writing word `v` at one visited offset exchanges that word in the
xor fold. -/
theorem xor_words_wr32 (buf : List Nat) {offs : List Nat} (hnd : offs.Nodup)
    {p : Nat} (hp : p ∈ offs) (hal : ∀ o ∈ offs, 4 ∣ o)
    (hplen : p + 4 ≤ buf.length) (v : Nat) (hv : v < 2 ^ 32) :
    xorFold (offs.map (rd32 (wr32 buf p v))) ^^^ rd32 buf p =
      xorFold (offs.map (rd32 buf)) ^^^ v := by
  have h : xorFold (offs.map (rd32 (wr32 buf p v))) ^^^ rd32 buf p =
      xorFold (offs.map (rd32 buf)) ^^^ rd32 (wr32 buf p v) p :=
    xor_map_update1 hnd hp (fun x hx hxp => by
      have hx4 := hal x hx
      have hp4 := hal p hp
      exact rd32_wr32_other (by omega) (by omega) v)
  rw [rd32_wr32_same hplen hv] at h
  exact h

/-- The skipping fold of `checksum_fix` equals the plain fold of the
word function zeroed at the skipped offsets. -/
theorem fixFold_eq (buf : List Nat) (siz : Nat) (pk px : Int) :
    fixFold buf siz pk px =
      (u32 (((stdOffs siz).map (fun (off : Nat) =>
          if (off : Int) = pk ∨ (off : Int) = px then 0 else rd32 buf off)).sum),
       xorFold ((stdOffs siz).map (fun (off : Nat) =>
          if (off : Int) = pk ∨ (off : Int) = px then 0 else rd32 buf off))) := by
  unfold fixFold
  have go : ∀ (offs : List Nat) (s x : Nat), s < 2 ^ 32 →
      offs.foldl (fun sx (off : Nat) =>
        if (off : Int) = pk ∨ (off : Int) = px then sx
        else (u32 (sx.1 + rd32 buf off), sx.2 ^^^ rd32 buf off)) (s, x) =
      (u32 (s + (offs.map (fun (off : Nat) =>
          if (off : Int) = pk ∨ (off : Int) = px then 0 else rd32 buf off)).sum),
       x ^^^ xorFold (offs.map (fun (off : Nat) =>
          if (off : Int) = pk ∨ (off : Int) = px then 0 else rd32 buf off))) := by
    intro offs
    induction offs with
    | nil =>
      intro s x hs
      simp [xorFold, u32]
      omega
    | cons o t ih =>
      intro s x hs
      simp only [List.foldl_cons, List.map_cons]
      by_cases h : (o : Int) = pk ∨ (o : Int) = px
      · rw [if_pos h, if_pos h, ih s x hs]
        simp [xorFold]
      · rw [if_neg h, if_neg h, ih _ _ (by simp [u32]; omega)]
        simp only [Prod.mk.injEq]
        constructor
        · simp only [List.sum_cons, u32]
          omega
        · simp [xorFold, Nat.xor_assoc]
  rw [go _ 0 0 (by norm_num)]
  simp

/-- C3 (the spec's Infeasible error kind): no call of `checksum_fix` ever
returns through the infeasibility exit — the mangler zeroes the xor
residual before the loop, so the aborting branch is unreachable — and
even a successful run rewrites the bytes at the three correction slots,
as the concrete 20-byte run shows (its slot at offset 16 held
`12 34 56 78` on entry and is overwritten), so a return from inside the
solver could never leave the buffer pristine. -/
theorem checksum_fix_never_infeasible :
    (∀ (buf : List Nat) (siz p_cks p_ckx p_cs p_cx p_mang : Int),
      (checksum_fix buf siz p_cks p_ckx p_cs p_cx p_mang).exit ≠ .infeasible) ∧
    (checksum_fix [0, 0, 0, 0, 0, 0, 0, 0, 0, 0, 0, 0, 0, 0, 0, 0,
        0x12, 0x34, 0x56, 0x78] 20 0 4 8 12 16).exit = .done ∧
    (checksum_fix [0, 0, 0, 0, 0, 0, 0, 0, 0, 0, 0, 0, 0, 0, 0, 0,
        0x12, 0x34, 0x56, 0x78] 20 0 4 8 12 16).buf ≠
      [0, 0, 0, 0, 0, 0, 0, 0, 0, 0, 0, 0, 0, 0, 0, 0, 0x12, 0x34, 0x56, 0x78] := by
  refine ⟨?_, by decide, by decide⟩
  intro buf siz p_cks p_ckx p_cs p_cx p_mang
  unfold checksum_fix
  split
  · simp
  · dsimp only
    rw [Nat.xor_self, fixLoop_dx_zero]
    simp

theorem sub32_lt (a b : Nat) : sub32 a b < 2 ^ 32 := by
  unfold sub32 u32
  omega

theorem rd32i_nonneg {buf : List Nat} {p : Int} (h : 0 ≤ p) :
    rd32i buf p = rd32 buf p.toNat := by
  simp [rd32i, h]

theorem wr32i_nonneg {buf : List Nat} {p : Int} (h : 0 ≤ p) (v : Nat) :
    wr32i buf p v = wr32 buf p.toNat v := by
  simp [wr32i, h]

/-- The residual additive target `ds` of `checksum_fix` as it stands when
the bit solver starts (after `ds = cks - ds; ds -= mang;`). -/
def fixResidual (buf : List Nat) (siz p_cks p_ckx p_cs p_cx p_mang : Int) : Nat :=
  sub32 (sub32 (rd32i buf p_cks) (fixFold (fixZeroed buf p_cs p_cx p_mang) siz.toNat p_cks p_ckx).1)
    (rd32i buf p_ckx ^^^ (fixFold (fixZeroed buf p_cs p_cx p_mang) siz.toNat p_cks p_ckx).2)

/-- The mangler value `mang = ckx ^ dx` chosen by `checksum_fix`. -/
def fixMang (buf : List Nat) (siz p_cks p_ckx p_cs p_cx p_mang : Int) : Nat :=
  rd32i buf p_ckx ^^^ (fixFold (fixZeroed buf p_cs p_cx p_mang) siz.toNat p_cks p_ckx).2

/-- The buffer produced by a completing run of `checksum_fix`. -/
def fixFinal (buf : List Nat) (siz p_cks p_ckx p_cs p_cx p_mang : Int) : List Nat :=
  wr32i (wr32i (wr32i (fixZeroed buf p_cs p_cx p_mang)
      p_cs (fixResidual buf siz p_cks p_ckx p_cs p_cx p_mang / 2))
      p_cx (fixResidual buf siz p_cks p_ckx p_cs p_cx p_mang / 2))
      p_mang (fixMang buf siz p_cks p_ckx p_cs p_cx p_mang)

/-- The whole parameter-validity precondition used by the in-bounds and
round-trip theorems: a well-formed byte buffer whose length is `siz`, a
positive multiple of 4, and five word-aligned, in-bounds, pairwise
distinct offsets. -/
abbrev FixOk (buf : List Nat) (siz p_cks p_ckx p_cs p_cx p_mang : Int) : Prop :=
  Wf8 buf ∧ (buf.length : Int) = siz ∧ siz % 4 = 0 ∧ 0 < siz ∧
  0 ≤ p_cks ∧ p_cks + 4 ≤ siz ∧ p_cks % 4 = 0 ∧
  0 ≤ p_ckx ∧ p_ckx + 4 ≤ siz ∧ p_ckx % 4 = 0 ∧
  0 ≤ p_cs ∧ p_cs + 4 ≤ siz ∧ p_cs % 4 = 0 ∧
  0 ≤ p_cx ∧ p_cx + 4 ≤ siz ∧ p_cx % 4 = 0 ∧
  0 ≤ p_mang ∧ p_mang + 4 ≤ siz ∧ p_mang % 4 = 0 ∧
  p_cks ≠ p_ckx ∧ p_cks ≠ p_cs ∧ p_cks ≠ p_cx ∧ p_cks ≠ p_mang ∧
  p_ckx ≠ p_cs ∧ p_ckx ≠ p_cx ∧ p_ckx ≠ p_mang ∧
  p_cs ≠ p_cx ∧ p_cs ≠ p_mang ∧ p_cx ≠ p_mang

/-- On parameters that pass the entry guard, `checksum_fix` always runs
to completion: the exit is `done`, `a = b = ds/2`, `mang` is the xor
residual, and the final buffer is `fixFinal`. -/
theorem checksum_fix_run {buf : List Nat} {siz p_cks p_ckx p_cs p_cx p_mang : Int}
    (hguard : ¬(siz ≤ 0 ∨ siz % 4 ≠ 0 ∨ siz ≤ p_cks ∨ siz ≤ p_ckx ∨ siz ≤ p_cs ∨ siz ≤ p_cx)) :
    (checksum_fix buf siz p_cks p_ckx p_cs p_cx p_mang).exit = .done ∧
    (checksum_fix buf siz p_cks p_ckx p_cs p_cx p_mang).a =
      fixResidual buf siz p_cks p_ckx p_cs p_cx p_mang / 2 ∧
    (checksum_fix buf siz p_cks p_ckx p_cs p_cx p_mang).b =
      fixResidual buf siz p_cks p_ckx p_cs p_cx p_mang / 2 ∧
    (checksum_fix buf siz p_cks p_ckx p_cs p_cx p_mang).mang =
      fixMang buf siz p_cks p_ckx p_cs p_cx p_mang ∧
    (checksum_fix buf siz p_cks p_ckx p_cs p_cx p_mang).buf =
      fixFinal buf siz p_cks p_ckx p_cs p_cx p_mang := by
  unfold checksum_fix
  rw [if_neg hguard]
  dsimp only
  rw [Nat.xor_self, fixLoop_solves (sub32_lt _ _)]
  dsimp only
  refine ⟨rfl, rfl, rfl, rfl, rfl⟩

theorem xor_cancel_right (x y : Nat) : x ^^^ y ^^^ y = x := by
  rw [Nat.xor_assoc, Nat.xor_self, Nat.xor_zero]

theorem xor_pair (a b : Nat) : a ^^^ (a ^^^ b) = b := by
  rw [← Nat.xor_assoc, Nat.xor_self, Nat.zero_xor]

/-- Two distinct 4-aligned offsets are 4 apart. -/
theorem aligned_disjoint {a b : Nat} (ha : a % 4 = 0) (hb : b % 4 = 0) (hne : a ≠ b) :
    a + 4 ≤ b ∨ b + 4 ≤ a := by omega

/-- Final arithmetic of the even-residual solve: the xor target folds to
the first word and the subtractive target to the second. -/
theorem fix_arith (SZ Sh SF XZ Xh XF w1 w2 M R : Nat)
    (hw1 : w1 < 2 ^ 32) (hw2 : w2 < 2 ^ 32) (hM : M < 2 ^ 32)
    (hSh : Sh + w2 + w1 = SZ) (hSF : SF = SZ + R / 2 + R / 2 + M)
    (hXh : Xh = XZ ^^^ w1 ^^^ w2) (hXF : XF = XZ ^^^ M)
    (hM2 : M = w2 ^^^ Xh)
    (hR : R = sub32 (sub32 w1 (u32 Sh)) M) (heven : R % 2 = 0) :
    XF = w1 ∧ sub32 (u32 SF) (u32 (2 * XF)) = w2 := by
  have hxf : XF = w1 := by
    rw [hXF, hM2, hXh]
    simp only [Nat.xor_assoc]
    rw [xor_left_comm w2 XZ (w1 ^^^ w2), xor_pair, Nat.xor_comm w1 w2, xor_pair]
  refine ⟨hxf, ?_⟩
  rw [hxf]
  unfold sub32 u32 at hR ⊢
  omega

set_option maxHeartbeats 3200000

/-- Core identity of a completing `checksum_fix` run with an even
residual: the final buffer folds back to exactly the two original target
words, which still sit (unchanged) at aligned in-bounds offsets. -/
theorem fix_core {buf : List Nat} {siz p1 p2 p3 p4 p5 : Int}
    (h : FixOk buf siz p1 p2 p3 p4 p5)
    (heven : fixResidual buf siz p1 p2 p3 p4 p5 % 2 = 0) :
    stdCksTarget (fixFinal buf siz p1 p2 p3 p4 p5) siz = rd32i buf p1 ∧
    stdCkxTarget (fixFinal buf siz p1 p2 p3 p4 p5) siz = rd32i buf p2 ∧
    rd32 (fixFinal buf siz p1 p2 p3 p4 p5) p1.toNat = rd32i buf p1 ∧
    rd32 (fixFinal buf siz p1 p2 p3 p4 p5) p2.toNat = rd32i buf p2 ∧
    p1.toNat ∈ stdOffs siz.toNat ∧ p2.toNat ∈ stdOffs siz.toNat ∧
    (fixFinal buf siz p1 p2 p3 p4 p5).length = buf.length ∧
    Wf8 (fixFinal buf siz p1 p2 p3 p4 p5) := by
  obtain ⟨hw, hlen, hmul, hpos, h01, hb1, ha1, h02, hb2, ha2, h03, hb3, ha3,
    h04, hb4, ha4, h05, hb5, ha5, d12, d13, d14, d15, d23, d24, d25, d34, d35, d45⟩ := h
  revert heven
  -- Nat-level offsets and bounds, one arithmetic pass
  have hfacts : siz.toNat = buf.length ∧ buf.length % 4 = 0 ∧
      (p1.toNat : Int) = p1 ∧ (p2.toNat : Int) = p2 ∧ (p3.toNat : Int) = p3 ∧
      (p4.toNat : Int) = p4 ∧ (p5.toNat : Int) = p5 ∧
      p1.toNat + 4 ≤ buf.length ∧ p2.toNat + 4 ≤ buf.length ∧
      p3.toNat + 4 ≤ buf.length ∧ p4.toNat + 4 ≤ buf.length ∧
      p5.toNat + 4 ≤ buf.length ∧
      p1.toNat % 4 = 0 ∧ p2.toNat % 4 = 0 ∧ p3.toNat % 4 = 0 ∧
      p4.toNat % 4 = 0 ∧ p5.toNat % 4 = 0 ∧
      p1.toNat ≠ p2.toNat ∧ p1.toNat ≠ p3.toNat ∧ p1.toNat ≠ p4.toNat ∧
      p1.toNat ≠ p5.toNat ∧ p2.toNat ≠ p3.toNat ∧ p2.toNat ≠ p4.toNat ∧
      p2.toNat ≠ p5.toNat ∧ p3.toNat ≠ p4.toNat ∧ p3.toNat ≠ p5.toNat ∧
      p4.toNat ≠ p5.toNat := by omega
  obtain ⟨hL, hLmul, hn1, hn2, hn3, hn4, hn5, hb1n, hb2n, hb3n, hb4n, hb5n,
    ha1n, ha2n, ha3n, ha4n, ha5n, hd12, hd13, hd14, hd15, hd23, hd24, hd25,
    hd34, hd35, hd45⟩ := hfacts
  have hmuln : siz.toNat % 4 = 0 := by omega
  have hdv1 : 4 ∣ p1.toNat := by omega
  have hdv2 : 4 ∣ p2.toNat := by omega
  have hdv3 : 4 ∣ p3.toNat := by omega
  have hdv4 : 4 ∣ p4.toNat := by omega
  have hdv5 : 4 ∣ p5.toNat := by omega
  have hs1 : p1.toNat + 4 ≤ siz.toNat := by omega
  have hs2 : p2.toNat + 4 ≤ siz.toNat := by omega
  have hs3 : p3.toNat + 4 ≤ siz.toNat := by omega
  have hs4 : p4.toNat + 4 ≤ siz.toNat := by omega
  have hs5 : p5.toNat + 4 ≤ siz.toNat := by omega
  have hple3 : p3.toNat ≤ buf.length := by omega
  have hple4 : p4.toNat ≤ buf.length := by omega
  have hple5 : p5.toNat ≤ buf.length := by omega
  have dj13 := aligned_disjoint ha1n ha3n hd13
  have dj14 := aligned_disjoint ha1n ha4n hd14
  have dj15 := aligned_disjoint ha1n ha5n hd15
  have dj23 := aligned_disjoint ha2n ha3n hd23
  have dj24 := aligned_disjoint ha2n ha4n hd24
  have dj25 := aligned_disjoint ha2n ha5n hd25
  have dj34 := aligned_disjoint ha3n ha4n hd34
  have dj35 := aligned_disjoint ha3n ha5n hd35
  have dj43 := aligned_disjoint ha4n ha3n (fun hh => hd34 hh.symm)
  have dj45 := aligned_disjoint ha4n ha5n hd45
  have dj53 := aligned_disjoint ha5n ha3n (fun hh => hd35 hh.symm)
  have dj54 := aligned_disjoint ha5n ha4n (fun hh => hd45 hh.symm)
  have hcast1 : ∀ x : Nat, ((x : Int) = p1) ↔ x = p1.toNat := by intro x; omega
  have hcast2 : ∀ x : Nat, ((x : Int) = p2) ↔ x = p2.toNat := by intro x; omega
  have hc21 : ¬((p2.toNat : Int) = p1) := by omega
  have hc11 : ((p1.toNat : Int) = p1) := hn1
  have hc22 : ((p2.toNat : Int) = p2) := hn2
  have h032 : (0 : Nat) < 2 ^ 32 := by norm_num
  generalize hRdef : fixResidual buf siz p1 p2 p3 p4 p5 = R
  intro heven
  -- the zeroed and final buffers in wr32 form
  have hzero : fixZeroed buf p3 p4 p5 = wr32 (wr32 (wr32 buf p3.toNat 0) p4.toNat 0) p5.toNat 0 := by
    unfold fixZeroed
    simp only [wr32i_nonneg h03, wr32i_nonneg h04, wr32i_nonneg h05]
  have hfinal : fixFinal buf siz p1 p2 p3 p4 p5 = wr32 (wr32 (wr32 (wr32 (wr32 (wr32 buf p3.toNat 0) p4.toNat 0) p5.toNat 0) p3.toNat (R / 2)) p4.toNat (R / 2)) p5.toNat (fixMang buf siz p1 p2 p3 p4 p5) := by
    unfold fixFinal
    simp only [wr32i_nonneg h03, wr32i_nonneg h04, wr32i_nonneg h05, hRdef, hzero]
  -- lengths
  have hlenA : (wr32 buf p3.toNat 0).length = buf.length := length_wr32 hple3 0
  have hlenB : (wr32 (wr32 buf p3.toNat 0) p4.toNat 0).length = buf.length := by
    rw [length_wr32 (by rw [hlenA]; exact hple4) 0]
    exact hlenA
  have hlenZ : (wr32 (wr32 (wr32 buf p3.toNat 0) p4.toNat 0) p5.toNat 0).length = buf.length := by
    rw [length_wr32 (by rw [hlenB]; exact hple5) 0]
    exact hlenB
  have hlenC : (wr32 (wr32 (wr32 (wr32 buf p3.toNat 0) p4.toNat 0) p5.toNat 0) p3.toNat (R / 2)).length = buf.length := by
    rw [length_wr32 (by rw [hlenZ]; exact hple3) (R / 2)]
    exact hlenZ
  have hlenD : (wr32 (wr32 (wr32 (wr32 (wr32 buf p3.toNat 0) p4.toNat 0) p5.toNat 0) p3.toNat (R / 2)) p4.toNat (R / 2)).length = buf.length := by
    rw [length_wr32 (by rw [hlenC]; exact hple4) (R / 2)]
    exact hlenC
  have hlenF : (wr32 (wr32 (wr32 (wr32 (wr32 (wr32 buf p3.toNat 0) p4.toNat 0) p5.toNat 0) p3.toNat (R / 2)) p4.toNat (R / 2)) p5.toNat (fixMang buf siz p1 p2 p3 p4 p5)).length = buf.length := by
    rw [length_wr32 (by rw [hlenD]; exact hple5) (fixMang buf siz p1 p2 p3 p4 p5)]
    exact hlenD
  -- well-formedness
  have hwZ : Wf8 (wr32 (wr32 (wr32 buf p3.toNat 0) p4.toNat 0) p5.toNat 0) := wf8_wr32 (wf8_wr32 (wf8_wr32 hw _ _) _ _) _ _
  have hwF : Wf8 (wr32 (wr32 (wr32 (wr32 (wr32 (wr32 buf p3.toNat 0) p4.toNat 0) p5.toNat 0) p3.toNat (R / 2)) p4.toNat (R / 2)) p5.toNat (fixMang buf siz p1 p2 p3 p4 p5)) := wf8_wr32 (wf8_wr32 (wf8_wr32 hwZ _ _) _ _) _ _
  -- word values in the zeroed buffer
  have hZ1 : rd32 (wr32 (wr32 (wr32 buf p3.toNat 0) p4.toNat 0) p5.toNat 0) p1.toNat = rd32 buf p1.toNat := by
    rw [rd32_wr32_other dj15 (by rw [hlenB]; exact hple5),
      rd32_wr32_other dj14 (by rw [hlenA]; exact hple4),
      rd32_wr32_other dj13 hple3]
  have hZ2 : rd32 (wr32 (wr32 (wr32 buf p3.toNat 0) p4.toNat 0) p5.toNat 0) p2.toNat = rd32 buf p2.toNat := by
    rw [rd32_wr32_other dj25 (by rw [hlenB]; exact hple5),
      rd32_wr32_other dj24 (by rw [hlenA]; exact hple4),
      rd32_wr32_other dj23 hple3]
  have hZ3 : rd32 (wr32 (wr32 (wr32 buf p3.toNat 0) p4.toNat 0) p5.toNat 0) p3.toNat = 0 := by
    rw [rd32_wr32_other dj35 (by rw [hlenB]; exact hple5),
      rd32_wr32_other dj34 (by rw [hlenA]; exact hple4),
      rd32_wr32_same hb3n h032]
  have hZ4 : rd32 (wr32 (wr32 (wr32 buf p3.toNat 0) p4.toNat 0) p5.toNat 0) p4.toNat = 0 := by
    rw [rd32_wr32_other dj45 (by rw [hlenB]; exact hple5),
      rd32_wr32_same (by rw [hlenA]; exact hb4n) h032]
  have hZ5 : rd32 (wr32 (wr32 (wr32 buf p3.toNat 0) p4.toNat 0) p5.toNat 0) p5.toNat = 0 := by
    rw [rd32_wr32_same (by rw [hlenB]; exact hb5n) h032]
  -- word values in the final buffer
  have hF1 : rd32 (wr32 (wr32 (wr32 (wr32 (wr32 (wr32 buf p3.toNat 0) p4.toNat 0) p5.toNat 0) p3.toNat (R / 2)) p4.toNat (R / 2)) p5.toNat (fixMang buf siz p1 p2 p3 p4 p5)) p1.toNat = rd32 buf p1.toNat := by
    rw [rd32_wr32_other dj15 (by rw [hlenD]; exact hple5),
      rd32_wr32_other dj14 (by rw [hlenC]; exact hple4),
      rd32_wr32_other dj13 (by rw [hlenZ]; exact hple3)]
    exact hZ1
  have hF2 : rd32 (wr32 (wr32 (wr32 (wr32 (wr32 (wr32 buf p3.toNat 0) p4.toNat 0) p5.toNat 0) p3.toNat (R / 2)) p4.toNat (R / 2)) p5.toNat (fixMang buf siz p1 p2 p3 p4 p5)) p2.toNat = rd32 buf p2.toNat := by
    rw [rd32_wr32_other dj25 (by rw [hlenD]; exact hple5),
      rd32_wr32_other dj24 (by rw [hlenC]; exact hple4),
      rd32_wr32_other dj23 (by rw [hlenZ]; exact hple3)]
    exact hZ2
  have hC4 : rd32 (wr32 (wr32 (wr32 (wr32 buf p3.toNat 0) p4.toNat 0) p5.toNat 0) p3.toNat (R / 2)) p4.toNat = 0 := by
    rw [rd32_wr32_other dj43 (by rw [hlenZ]; exact hple3)]
    exact hZ4
  have hD5 : rd32 (wr32 (wr32 (wr32 (wr32 (wr32 buf p3.toNat 0) p4.toNat 0) p5.toNat 0) p3.toNat (R / 2)) p4.toNat (R / 2)) p5.toNat = 0 := by
    rw [rd32_wr32_other dj54 (by rw [hlenC]; exact hple4),
      rd32_wr32_other dj53 (by rw [hlenZ]; exact hple3)]
    exact hZ5
  -- memberships
  have hm1 : p1.toNat ∈ stdOffs siz.toNat := mem_stdOffs_of hdv1 hs1
  have hm2 : p2.toNat ∈ stdOffs siz.toNat := mem_stdOffs_of hdv2 hs2
  have hm3 : p3.toNat ∈ stdOffs siz.toNat := mem_stdOffs_of hdv3 hs3
  have hm4 : p4.toNat ∈ stdOffs siz.toNat := mem_stdOffs_of hdv4 hs4
  have hm5 : p5.toNat ∈ stdOffs siz.toNat := mem_stdOffs_of hdv5 hs5
  have hnd : (stdOffs siz.toNat).Nodup := stdOffs_nodup _
  have hal : ∀ o ∈ stdOffs siz.toNat, 4 ∣ o := fun o ho => (stdOffs_inbounds ho hmuln).2
  -- bounds on word values
  have hw1lt : rd32 buf p1.toNat < 2 ^ 32 := rd32_lt hw _
  have hw2lt : rd32 buf p2.toNat < 2 ^ 32 := rd32_lt hw _
  have hRlt2 : R / 2 < 2 ^ 32 := by
    have := sub32_lt (sub32 (rd32i buf p1) (fixFold (fixZeroed buf p3 p4 p5) siz.toNat p1 p2).1)
      (rd32i buf p2 ^^^ (fixFold (fixZeroed buf p3 p4 p5) siz.toNat p1 p2).2)
    rw [show sub32 (sub32 (rd32i buf p1) (fixFold (fixZeroed buf p3 p4 p5) siz.toNat p1 p2).1)
      (rd32i buf p2 ^^^ (fixFold (fixZeroed buf p3 p4 p5) siz.toNat p1 p2).2) = R from hRdef] at this
    omega
  -- the fixFold of the zeroed buffer, in plain-fold form
  have hFoldZ : fixFold (wr32 (wr32 (wr32 buf p3.toNat 0) p4.toNat 0) p5.toNat 0) siz.toNat p1 p2 =
      (u32 (((stdOffs siz.toNat).map (fun (x : Nat) => if (x : Int) = p1 ∨ (x : Int) = p2 then 0 else rd32 (wr32 (wr32 (wr32 buf p3.toNat 0) p4.toNat 0) p5.toNat 0) x)).sum),
       xorFold ((stdOffs siz.toNat).map (fun (x : Nat) => if (x : Int) = p1 ∨ (x : Int) = p2 then 0 else rd32 (wr32 (wr32 (wr32 buf p3.toNat 0) p4.toNat 0) p5.toNat 0) x))) := fixFold_eq _ _ _ _
  -- mangler bound
  have hXhlt : xorFold ((stdOffs siz.toNat).map (fun (x : Nat) => if (x : Int) = p1 ∨ (x : Int) = p2 then 0 else rd32 (wr32 (wr32 (wr32 buf p3.toNat 0) p4.toNat 0) p5.toNat 0) x)) < 2 ^ 32 := by
    refine xorFold_lt ?_
    intro w hwmem
    obtain ⟨x, hx, rfl⟩ := List.mem_map.1 hwmem
    by_cases hcond : (x : Int) = p1 ∨ (x : Int) = p2
    · simp only [if_pos hcond]
      norm_num
    · simp only [if_neg hcond]
      exact rd32_lt hwZ x
  have hMexp : fixMang buf siz p1 p2 p3 p4 p5 = rd32 buf p2.toNat ^^^ xorFold ((stdOffs siz.toNat).map (fun (x : Nat) => if (x : Int) = p1 ∨ (x : Int) = p2 then 0 else rd32 (wr32 (wr32 (wr32 buf p3.toNat 0) p4.toNat 0) p5.toNat 0) x)) := by
    unfold fixMang
    rw [hzero, hFoldZ, rd32i_nonneg h02]
  have hMlt : (fixMang buf siz p1 p2 p3 p4 p5) < 2 ^ 32 := by
    rw [hMexp]
    exact Nat.xor_lt_two_pow hw2lt hXhlt
  -- residual in explicit form
  have hRexp : R = sub32 (sub32 (rd32 buf p1.toNat) (u32 (((stdOffs siz.toNat).map (fun (x : Nat) => if (x : Int) = p1 ∨ (x : Int) = p2 then 0 else rd32 (wr32 (wr32 (wr32 buf p3.toNat 0) p4.toNat 0) p5.toNat 0) x)).sum)))
      (fixMang buf siz p1 p2 p3 p4 p5) := by
    rw [← hRdef]
    unfold fixResidual fixMang
    rw [hzero, hFoldZ, rd32i_nonneg h01, rd32i_nonneg h02]
  -- relate the skipping fold to the zeroed-buffer fold (two exchanges)
  have hfg2 : ∀ x ∈ (stdOffs siz.toNat), x ≠ p2.toNat → (fun (x : Nat) => if (x : Int) = p1 ∨ (x : Int) = p2 then 0 else rd32 (wr32 (wr32 (wr32 buf p3.toNat 0) p4.toNat 0) p5.toNat 0) x) x = (fun (x : Nat) => if (x : Int) = p1 then 0 else rd32 (wr32 (wr32 (wr32 buf p3.toNat 0) p4.toNat 0) p5.toNat 0) x) x := by
    intro x hx hxne
    dsimp only
    by_cases h1 : (x : Int) = p1
    · rw [if_pos (Or.inl h1), if_pos h1]
    · have h2 : ¬((x : Int) = p2) := fun hc => hxne ((hcast2 x).1 hc)
      rw [if_neg (fun hc => hc.elim h1 h2), if_neg h1]
  have hfg1 : ∀ x ∈ (stdOffs siz.toNat), x ≠ p1.toNat → (fun (x : Nat) => if (x : Int) = p1 then 0 else rd32 (wr32 (wr32 (wr32 buf p3.toNat 0) p4.toNat 0) p5.toNat 0) x) x = rd32 (wr32 (wr32 (wr32 buf p3.toNat 0) p4.toNat 0) p5.toNat 0) x := by
    intro x hx hxne
    dsimp only
    rw [if_neg (fun hc => hxne ((hcast1 x).1 hc))]
  have hg1at2 : (if ((p2.toNat : Int) = p1) then (0 : Nat) else rd32 (wr32 (wr32 (wr32 buf p3.toNat 0) p4.toNat 0) p5.toNat 0) p2.toNat) = rd32 buf p2.toNat := by
    rw [if_neg hc21]
    exact hZ2
  have hhat2 : (if ((p2.toNat : Int) = p1 ∨ (p2.toNat : Int) = p2) then (0 : Nat) else rd32 (wr32 (wr32 (wr32 buf p3.toNat 0) p4.toNat 0) p5.toNat 0) p2.toNat) = 0 := by
    rw [if_pos (Or.inr hc22)]
  have hg1at1 : (if ((p1.toNat : Int) = p1) then (0 : Nat) else rd32 (wr32 (wr32 (wr32 buf p3.toNat 0) p4.toNat 0) p5.toNat 0) p1.toNat) = 0 := by
    rw [if_pos hc11]
  have eH2s := sum_map_update1 hnd hm2 hfg2
  beta_reduce at eH2s
  rw [hg1at2, hhat2, Nat.add_zero] at eH2s
  have eH1s := sum_map_update1 hnd hm1 hfg1
  beta_reduce at eH1s
  rw [hg1at1, hZ1, Nat.add_zero] at eH1s
  have hSh : ((stdOffs siz.toNat).map (fun (x : Nat) => if (x : Int) = p1 ∨ (x : Int) = p2 then 0 else rd32 (wr32 (wr32 (wr32 buf p3.toNat 0) p4.toNat 0) p5.toNat 0) x)).sum + rd32 buf p2.toNat + rd32 buf p1.toNat =
      ((stdOffs siz.toNat).map (rd32 (wr32 (wr32 (wr32 buf p3.toNat 0) p4.toNat 0) p5.toNat 0))).sum := by
    rw [eH2s, eH1s]
  have eH2x := xor_map_update1 hnd hm2 hfg2
  beta_reduce at eH2x
  rw [hg1at2, hhat2, Nat.xor_zero] at eH2x
  have eH1x := xor_map_update1 hnd hm1 hfg1
  beta_reduce at eH1x
  rw [hg1at1, hZ1, Nat.xor_zero] at eH1x
  have hXh : xorFold ((stdOffs siz.toNat).map (fun (x : Nat) => if (x : Int) = p1 ∨ (x : Int) = p2 then 0 else rd32 (wr32 (wr32 (wr32 buf p3.toNat 0) p4.toNat 0) p5.toNat 0) x)) =
      xorFold ((stdOffs siz.toNat).map (rd32 (wr32 (wr32 (wr32 buf p3.toNat 0) p4.toNat 0) p5.toNat 0))) ^^^ rd32 buf p1.toNat ^^^ rd32 buf p2.toNat := by
    have e1 : xorFold ((stdOffs siz.toNat).map (fun (x : Nat) => if (x : Int) = p1 then 0 else rd32 (wr32 (wr32 (wr32 buf p3.toNat 0) p4.toNat 0) p5.toNat 0) x)) =
        xorFold ((stdOffs siz.toNat).map (rd32 (wr32 (wr32 (wr32 buf p3.toNat 0) p4.toNat 0) p5.toNat 0))) ^^^ rd32 buf p1.toNat := by
      rw [← eH1x, xor_cancel_right]
    have e2 : xorFold ((stdOffs siz.toNat).map (fun (x : Nat) => if (x : Int) = p1 ∨ (x : Int) = p2 then 0 else rd32 (wr32 (wr32 (wr32 buf p3.toNat 0) p4.toNat 0) p5.toNat 0) x)) =
        xorFold ((stdOffs siz.toNat).map (fun (x : Nat) => if (x : Int) = p1 then 0 else rd32 (wr32 (wr32 (wr32 buf p3.toNat 0) p4.toNat 0) p5.toNat 0) x)) ^^^ rd32 buf p2.toNat := by
      rw [← eH2x, xor_cancel_right]
    rw [e2, e1]
  -- the three final writes, additive side
  have eSC := sum_words_wr32 (wr32 (wr32 (wr32 buf p3.toNat 0) p4.toNat 0) p5.toNat 0) hnd hm3 hal
    (by rw [hlenZ]; exact hb3n) (R / 2) hRlt2
  rw [hZ3, Nat.add_zero] at eSC
  have eSD := sum_words_wr32 (wr32 (wr32 (wr32 (wr32 buf p3.toNat 0) p4.toNat 0) p5.toNat 0) p3.toNat (R / 2)) hnd hm4 hal
    (by rw [hlenC]; exact hb4n) (R / 2) hRlt2
  rw [hC4, Nat.add_zero] at eSD
  have eSF := sum_words_wr32 (wr32 (wr32 (wr32 (wr32 (wr32 buf p3.toNat 0) p4.toNat 0) p5.toNat 0) p3.toNat (R / 2)) p4.toNat (R / 2)) hnd hm5 hal
    (by rw [hlenD]; exact hb5n) (fixMang buf siz p1 p2 p3 p4 p5) hMlt
  rw [hD5, Nat.add_zero] at eSF
  have hSF : ((stdOffs siz.toNat).map (rd32 (wr32 (wr32 (wr32 (wr32 (wr32 (wr32 buf p3.toNat 0) p4.toNat 0) p5.toNat 0) p3.toNat (R / 2)) p4.toNat (R / 2)) p5.toNat (fixMang buf siz p1 p2 p3 p4 p5)))).sum =
      ((stdOffs siz.toNat).map (rd32 (wr32 (wr32 (wr32 buf p3.toNat 0) p4.toNat 0) p5.toNat 0))).sum + R / 2 + R / 2 + (fixMang buf siz p1 p2 p3 p4 p5) := by
    rw [eSF, eSD, eSC]
  -- the three final writes, xor side
  have eXC := xor_words_wr32 (wr32 (wr32 (wr32 buf p3.toNat 0) p4.toNat 0) p5.toNat 0) hnd hm3 hal
    (by rw [hlenZ]; exact hb3n) (R / 2) hRlt2
  rw [hZ3, Nat.xor_zero] at eXC
  have eXD := xor_words_wr32 (wr32 (wr32 (wr32 (wr32 buf p3.toNat 0) p4.toNat 0) p5.toNat 0) p3.toNat (R / 2)) hnd hm4 hal
    (by rw [hlenC]; exact hb4n) (R / 2) hRlt2
  rw [hC4, Nat.xor_zero] at eXD
  have eXF := xor_words_wr32 (wr32 (wr32 (wr32 (wr32 (wr32 buf p3.toNat 0) p4.toNat 0) p5.toNat 0) p3.toNat (R / 2)) p4.toNat (R / 2)) hnd hm5 hal
    (by rw [hlenD]; exact hb5n) (fixMang buf siz p1 p2 p3 p4 p5) hMlt
  rw [hD5, Nat.xor_zero] at eXF
  have hXF : xorFold ((stdOffs siz.toNat).map (rd32 (wr32 (wr32 (wr32 (wr32 (wr32 (wr32 buf p3.toNat 0) p4.toNat 0) p5.toNat 0) p3.toNat (R / 2)) p4.toNat (R / 2)) p5.toNat (fixMang buf siz p1 p2 p3 p4 p5)))) =
      xorFold ((stdOffs siz.toNat).map (rd32 (wr32 (wr32 (wr32 buf p3.toNat 0) p4.toNat 0) p5.toNat 0))) ^^^ (fixMang buf siz p1 p2 p3 p4 p5) := by
    rw [eXF, eXD, eXC, Nat.xor_assoc _ (R / 2) (R / 2), Nat.xor_self, Nat.xor_zero]
  -- final arithmetic
  have harith := fix_arith
    (((stdOffs siz.toNat).map (rd32 (wr32 (wr32 (wr32 buf p3.toNat 0) p4.toNat 0) p5.toNat 0))).sum)
    (((stdOffs siz.toNat).map (fun (x : Nat) => if (x : Int) = p1 ∨ (x : Int) = p2 then 0 else rd32 (wr32 (wr32 (wr32 buf p3.toNat 0) p4.toNat 0) p5.toNat 0) x)).sum)
    (((stdOffs siz.toNat).map (rd32 (wr32 (wr32 (wr32 (wr32 (wr32 (wr32 buf p3.toNat 0) p4.toNat 0) p5.toNat 0) p3.toNat (R / 2)) p4.toNat (R / 2)) p5.toNat (fixMang buf siz p1 p2 p3 p4 p5)))).sum)
    (xorFold ((stdOffs siz.toNat).map (rd32 (wr32 (wr32 (wr32 buf p3.toNat 0) p4.toNat 0) p5.toNat 0))))
    (xorFold ((stdOffs siz.toNat).map (fun (x : Nat) => if (x : Int) = p1 ∨ (x : Int) = p2 then 0 else rd32 (wr32 (wr32 (wr32 buf p3.toNat 0) p4.toNat 0) p5.toNat 0) x)))
    (xorFold ((stdOffs siz.toNat).map (rd32 (wr32 (wr32 (wr32 (wr32 (wr32 (wr32 buf p3.toNat 0) p4.toNat 0) p5.toNat 0) p3.toNat (R / 2)) p4.toNat (R / 2)) p5.toNat (fixMang buf siz p1 p2 p3 p4 p5)))))
    (rd32 buf p1.toNat) (rd32 buf p2.toNat) (fixMang buf siz p1 p2 p3 p4 p5) R
    hw1lt hw2lt hMlt hSh hSF hXh hXF hMexp hRexp heven
  refine ⟨?_, ?_, ?_, ?_, hm1, hm2, ?_, ?_⟩
  · rw [hfinal, rd32i_nonneg h01]
    unfold stdCksTarget
    rw [foldSX_eq]
    exact harith.1
  · rw [hfinal, rd32i_nonneg h02]
    unfold stdCkxTarget
    rw [foldSX_eq]
    exact harith.2
  · rw [hfinal, rd32i_nonneg h01]
    exact hF1
  · rw [hfinal, rd32i_nonneg h02]
    exact hF2
  · rw [hfinal]
    exact hlenF
  · rw [hfinal]
    exact hwF

set_option maxHeartbeats 200000


theorem checksum_std_oob (buf : List Nat) {siz : Int} (hpos : 0 < siz) :
    (checksum_std buf siz).oob =
      (stdOffs siz.toNat).any (fun off => !okB buf.length (off : Int)) := by
  unfold checksum_std
  rw [if_neg (by omega)]
  dsimp only
  split <;> rfl

/-- After a completing even-residual run, `checksum_std` on the final
buffer succeeds and relocates both original target words. -/
theorem fix_relocate_core {buf : List Nat} {siz p1 p2 p3 p4 p5 : Int}
    (hok : FixOk buf siz p1 p2 p3 p4 p5)
    (heven : fixResidual buf siz p1 p2 p3 p4 p5 % 2 = 0) :
    ∃ os ox,
      (checksum_std (fixFinal buf siz p1 p2 p3 p4 p5) siz).ret = 0 ∧
      (checksum_std (fixFinal buf siz p1 p2 p3 p4 p5) siz).p_cks = some os ∧
      (checksum_std (fixFinal buf siz p1 p2 p3 p4 p5) siz).p_ckx = some ox ∧
      os ∈ stdOffs siz.toNat ∧ ox ∈ stdOffs siz.toNat ∧
      rd32 (fixFinal buf siz p1 p2 p3 p4 p5) os = rd32i buf p1 ∧
      rd32 (fixFinal buf siz p1 p2 p3 p4 p5) ox = rd32i buf p2 := by
  have hpos : 0 < siz := hok.2.2.2.1
  obtain ⟨hT1, hT2, hv1, hv2, hmem1, hmem2, hlenF, hwF⟩ := fix_core hok heven
  have hsome1 : (matchOffs (fixFinal buf siz p1 p2 p3 p4 p5)
      (stdCksTarget (fixFinal buf siz p1 p2 p3 p4 p5) siz)
      (stdOffs siz.toNat)).getLast?.isSome :=
    matchOffs_getLast?_isSome hmem1 (by rw [hT1]; exact hv1)
  have hsome2 : (matchOffs (fixFinal buf siz p1 p2 p3 p4 p5)
      (stdCkxTarget (fixFinal buf siz p1 p2 p3 p4 p5) siz)
      (stdOffs siz.toNat)).getLast?.isSome :=
    matchOffs_getLast?_isSome hmem2 (by rw [hT2]; exact hv2)
  obtain ⟨os, hos⟩ := Option.isSome_iff_exists.1 hsome1
  obtain ⟨ox, hox⟩ := Option.isSome_iff_exists.1 hsome2
  have hne : ¬((matchOffs (fixFinal buf siz p1 p2 p3 p4 p5)
        (stdCkxTarget (fixFinal buf siz p1 p2 p3 p4 p5) siz)
        (stdOffs siz.toNat)).length = 0 ∧
      (matchOffs (fixFinal buf siz p1 p2 p3 p4 p5)
        (stdCksTarget (fixFinal buf siz p1 p2 p3 p4 p5) siz)
        (stdOffs siz.toNat)).length = 0) := by
    intro hcon
    have hs0 := hcon.2
    rw [List.length_eq_zero] at hs0
    rw [hs0] at hos
    simp at hos
  refine ⟨os, ox, ?_, ?_, ?_, ?_, ?_, ?_, ?_⟩
  · rw [checksum_std_ret _ hpos, if_neg hne]
  · rw [checksum_std_p_cks _ hpos]
    exact hos
  · rw [checksum_std_p_ckx _ hpos]
    exact hox
  · exact (matchOffs_of_getLast? hos).1
  · exact (matchOffs_of_getLast? hox).1
  · rw [(matchOffs_of_getLast? hos).2, hT1]
  · rw [(matchOffs_of_getLast? hox).2, hT2]

/-- C1 counterexample: the 20-byte image with words `1,0,0,0,0`,
`p_cks = 0`, `p_ckx = 4` and correction slots at 8, 12, 16 makes the
residual sum target odd (1).  `checksum_fix` completes without its
infeasibility exit, yet `checksum_std` on the result cannot relocate the
xor-channel target: its second output is never assigned, so no pair of
offsets with the original target words exists. -/
theorem checksum_fix_relocate_cex :
    (checksum_fix [0, 0, 0, 1, 0, 0, 0, 0, 0, 0, 0, 0, 0, 0, 0, 0, 0, 0, 0, 0]
      20 0 4 8 12 16).exit = .done ∧
    ¬∃ os ox,
      (checksum_std (checksum_fix [0, 0, 0, 1, 0, 0, 0, 0, 0, 0, 0, 0, 0, 0, 0, 0, 0, 0, 0, 0]
        20 0 4 8 12 16).buf 20).ret = 0 ∧
      (checksum_std (checksum_fix [0, 0, 0, 1, 0, 0, 0, 0, 0, 0, 0, 0, 0, 0, 0, 0, 0, 0, 0, 0]
        20 0 4 8 12 16).buf 20).p_cks = some os ∧
      (checksum_std (checksum_fix [0, 0, 0, 1, 0, 0, 0, 0, 0, 0, 0, 0, 0, 0, 0, 0, 0, 0, 0, 0]
        20 0 4 8 12 16).buf 20).p_ckx = some ox ∧
      rd32 (checksum_fix [0, 0, 0, 1, 0, 0, 0, 0, 0, 0, 0, 0, 0, 0, 0, 0, 0, 0, 0, 0]
        20 0 4 8 12 16).buf os =
        rd32i [0, 0, 0, 1, 0, 0, 0, 0, 0, 0, 0, 0, 0, 0, 0, 0, 0, 0, 0, 0] 0 ∧
      rd32 (checksum_fix [0, 0, 0, 1, 0, 0, 0, 0, 0, 0, 0, 0, 0, 0, 0, 0, 0, 0, 0, 0]
        20 0 4 8 12 16).buf ox =
        rd32i [0, 0, 0, 1, 0, 0, 0, 0, 0, 0, 0, 0, 0, 0, 0, 0, 0, 0, 0, 0] 4 := by
  refine ⟨by decide, ?_⟩
  rintro ⟨os, ox, hret, hcks, hckx, hws, hwx⟩
  have hnone : (checksum_std (checksum_fix
      [0, 0, 0, 1, 0, 0, 0, 0, 0, 0, 0, 0, 0, 0, 0, 0, 0, 0, 0, 0]
      20 0 4 8 12 16).buf 20).p_ckx = none := by decide
  rw [hnone] at hckx
  exact Option.noConfusion hckx

/-- C1 (amended): for a well-formed image with five aligned, distinct,
in-bounds offsets, if `checksum_fix` completes without taking its
infeasibility exit AND the residual additive target is even, then
`checksum_std` on the written image succeeds and relocates offsets whose
stored words equal the original targets `word(B, p_cks)` and
`word(B, p_ckx)`.  (The parity condition is necessary: with an odd
residual the solver writes `a + b = ds - 1` and the fold identity
fails.) -/
theorem checksum_fix_relocates (buf : List Nat) (siz p_cks p_ckx p_a p_b p_c : Int)
    (hok : FixOk buf siz p_cks p_ckx p_a p_b p_c)
    (heven : fixResidual buf siz p_cks p_ckx p_a p_b p_c % 2 = 0)
    (hdone : (checksum_fix buf siz p_cks p_ckx p_a p_b p_c).exit = .done) :
    ∃ os ox,
      (checksum_std (checksum_fix buf siz p_cks p_ckx p_a p_b p_c).buf siz).ret = 0 ∧
      (checksum_std (checksum_fix buf siz p_cks p_ckx p_a p_b p_c).buf siz).p_cks = some os ∧
      (checksum_std (checksum_fix buf siz p_cks p_ckx p_a p_b p_c).buf siz).p_ckx = some ox ∧
      rd32 (checksum_fix buf siz p_cks p_ckx p_a p_b p_c).buf os = rd32i buf p_cks ∧
      rd32 (checksum_fix buf siz p_cks p_ckx p_a p_b p_c).buf ox = rd32i buf p_ckx := by
  have hguard : ¬(siz ≤ 0 ∨ siz % 4 ≠ 0 ∨ siz ≤ p_cks ∨ siz ≤ p_ckx ∨ siz ≤ p_a ∨ siz ≤ p_b) := by
    obtain ⟨-, -, hmul, hpos, -, hb1, -, -, hb2, -, -, hb3, -, -, hb4, -⟩ := hok
    omega
  obtain ⟨-, -, -, -, hbuf⟩ := @checksum_fix_run
    buf siz p_cks p_ckx p_a p_b p_c hguard
  rw [hbuf]
  obtain ⟨os, ox, hret, hcks, hckx, hmos, hmox, hws, hwx⟩ := fix_relocate_core hok heven
  exact ⟨os, ox, hret, hcks, hckx, hws, hwx⟩

/-- Witness for `checksum_fix_relocates`: words `2,0,0,0,0` give an even
residual (2). -/
theorem checksum_fix_relocates_witness :
    ∃ os ox,
      (checksum_std (checksum_fix [0, 0, 0, 2, 0, 0, 0, 0, 0, 0, 0, 0, 0, 0, 0, 0, 0, 0, 0, 0]
        20 0 4 8 12 16).buf 20).ret = 0 ∧
      (checksum_std (checksum_fix [0, 0, 0, 2, 0, 0, 0, 0, 0, 0, 0, 0, 0, 0, 0, 0, 0, 0, 0, 0]
        20 0 4 8 12 16).buf 20).p_cks = some os ∧
      (checksum_std (checksum_fix [0, 0, 0, 2, 0, 0, 0, 0, 0, 0, 0, 0, 0, 0, 0, 0, 0, 0, 0, 0]
        20 0 4 8 12 16).buf 20).p_ckx = some ox ∧
      rd32 (checksum_fix [0, 0, 0, 2, 0, 0, 0, 0, 0, 0, 0, 0, 0, 0, 0, 0, 0, 0, 0, 0]
        20 0 4 8 12 16).buf os =
        rd32i [0, 0, 0, 2, 0, 0, 0, 0, 0, 0, 0, 0, 0, 0, 0, 0, 0, 0, 0, 0] 0 ∧
      rd32 (checksum_fix [0, 0, 0, 2, 0, 0, 0, 0, 0, 0, 0, 0, 0, 0, 0, 0, 0, 0, 0, 0]
        20 0 4 8 12 16).buf ox =
        rd32i [0, 0, 0, 2, 0, 0, 0, 0, 0, 0, 0, 0, 0, 0, 0, 0, 0, 0, 0, 0] 4 :=
  checksum_fix_relocates [0, 0, 0, 2, 0, 0, 0, 0, 0, 0, 0, 0, 0, 0, 0, 0, 0, 0, 0, 0]
    20 0 4 8 12 16 (by decide) (by decide) (by decide)

/-- The out-of-bounds flag produced by a guard-passing run of
`checksum_fix`, expressed over the final buffer. -/
def fixOob (buf : List Nat) (siz p_cks p_ckx p_cs p_cx p_mang : Int) : Bool :=
  let len := buf.length
  let oob1 := !okB len p_cks || !okB len p_ckx || !okB len p_cs || !okB len p_cx ||
    !okB len p_mang ||
    (stdOffs siz.toNat).any (fun off =>
      if (off : Int) = p_cks ∨ (off : Int) = p_ckx then false else !okB len (off : Int))
  let sr := checksum_std (fixFinal buf siz p_cks p_ckx p_cs p_cx p_mang) siz
  oob1 || sr.oob ||
    (match sr.p_cks with | some o => !okB len (o : Int) | none => true) ||
    (match sr.p_ckx with | some o => !okB len (o : Int) | none => true)

theorem checksum_fix_oob_eq {buf : List Nat} {siz p_cks p_ckx p_cs p_cx p_mang : Int}
    (hguard : ¬(siz ≤ 0 ∨ siz % 4 ≠ 0 ∨ siz ≤ p_cks ∨ siz ≤ p_ckx ∨ siz ≤ p_cs ∨ siz ≤ p_cx)) :
    (checksum_fix buf siz p_cks p_ckx p_cs p_cx p_mang).oob =
      fixOob buf siz p_cks p_ckx p_cs p_cx p_mang := by
  unfold checksum_fix
  rw [if_neg hguard]
  dsimp only
  rw [Nat.xor_self, fixLoop_solves (sub32_lt _ _)]
  rfl

/-- C4 counterexample: on the 4-byte buffer with `p_mang = 4` the entry
guard of `checksum_fix` does not reject (it never tests `p_c`), and the
4-byte write at offset 4 lands entirely outside the buffer: the model's
out-of-bounds flag is raised.  The claim that no byte outside
`[0, |B|)` is ever touched for arbitrary offset values is false. -/
theorem checksum_fix_oob_cex :
    (checksum_fix [0, 0, 0, 0] 4 0 0 0 0 4).exit = .done ∧
    (checksum_fix [0, 0, 0, 0] 4 0 0 0 0 4).oob = true := by
  decide

/-- C4 (amended): when the five offsets are word-aligned, pairwise
distinct and in bounds of a buffer whose length is `siz` (a positive
multiple of 4), and the residual additive target is even (so that the
final verification scan succeeds and its outputs are assigned),
`checksum_fix` touches no byte outside `[0, |B|)`: every flagged access
of the model is in bounds. -/
theorem checksum_fix_no_oob (buf : List Nat) (siz p_cks p_ckx p_a p_b p_c : Int)
    (hok : FixOk buf siz p_cks p_ckx p_a p_b p_c)
    (heven : fixResidual buf siz p_cks p_ckx p_a p_b p_c % 2 = 0) :
    (checksum_fix buf siz p_cks p_ckx p_a p_b p_c).oob = false := by
  have hfacts := hok
  obtain ⟨-, hlen, hmul, hpos, hk1, hk2, -, hx1, hx2, -, ha1, ha2, -,
    hb1, hb2, -, hc1, hc2, -, -⟩ := hfacts
  have hguard : ¬(siz ≤ 0 ∨ siz % 4 ≠ 0 ∨ siz ≤ p_cks ∨ siz ≤ p_ckx ∨ siz ≤ p_a ∨ siz ≤ p_b) := by
    omega
  obtain ⟨-, -, -, -, -, -, hlenF, -⟩ := fix_core hok heven
  obtain ⟨os, ox, -, hcks, hckx, hmos, hmox, -, -⟩ := fix_relocate_core hok heven
  have hB : ∀ p : Int, 0 ≤ p → p + 4 ≤ siz → okB buf.length p = true := by
    intro p hp1 hp2
    simp only [okB, decide_eq_true_eq]
    omega
  have hm4 : siz.toNat % 4 = 0 := by omega
  have hany1 : (stdOffs siz.toNat).any (fun off =>
      if (off : Int) = p_cks ∨ (off : Int) = p_ckx then false
      else !okB buf.length (off : Int)) = false := by
    rw [List.any_eq_false]
    intro off hoff
    obtain ⟨hb, -⟩ := stdOffs_inbounds hoff hm4
    split
    · simp
    · simp [hB (off : Int) (by omega) (by omega)]
  have hany2 : (stdOffs siz.toNat).any (fun off => !okB buf.length (off : Int)) = false := by
    rw [List.any_eq_false]
    intro off hoff
    obtain ⟨hb, -⟩ := stdOffs_inbounds hoff hm4
    simp [hB (off : Int) (by omega) (by omega)]
  obtain ⟨hos4, -⟩ := stdOffs_inbounds hmos hm4
  obtain ⟨hox4, -⟩ := stdOffs_inbounds hmox hm4
  rw [checksum_fix_oob_eq hguard]
  unfold fixOob
  dsimp only
  rw [hcks, hckx]
  dsimp only
  rw [checksum_std_oob _ hpos, hlenF]
  simp [hany1, hany2,
    hB p_cks (by omega) (by omega), hB p_ckx (by omega) (by omega),
    hB p_a (by omega) (by omega), hB p_b (by omega) (by omega),
    hB p_c (by omega) (by omega),
    hB (os : Int) (by omega) (by omega), hB (ox : Int) (by omega) (by omega)]
  intro x hx h1 h2
  obtain ⟨hb, -⟩ := stdOffs_inbounds hx hm4
  exact hB _ (by omega) (by omega)

/-- Witness for `checksum_fix_no_oob` at a concrete 20-byte image. -/
theorem checksum_fix_no_oob_witness :
    (checksum_fix [0, 0, 0, 2, 0, 0, 0, 0, 0, 0, 0, 0, 0, 0, 0, 0, 0, 0, 0, 0]
      20 0 4 8 12 16).oob = false :=
  checksum_fix_no_oob [0, 0, 0, 2, 0, 0, 0, 0, 0, 0, 0, 0, 0, 0, 0, 0, 0, 0, 0, 0]
    20 0 4 8 12 16 (by decide) (by decide)

/- ## find_ramf: locating the RAMF structure by header sweep
(nisrom.c lines 503-529) -/

/-- The body of the `while (ramf_adj < ft->pRAMF_maxdist)` sweep in
`find_ramf` (nisrom.c lines 511-528): probe the word at
`p_ramf + sign*ramf_adj`; on mismatch, while `ramf_adj < 0x0c` flip the
sign and bump `ramf_adj` by 4 only when the new sign is positive,
otherwise force the sign positive and bump by 4.  `pos` is the sign flag
(the C `sign` variable only ever holds 1 or -1).  Returns the signed
delta recorded into `ramf_offset`, or `none` when the loop exhausts. -/
def ramfSweepAux (buf : List Nat) (p_ramf hdr : Nat) (maxdist adj : Int) (pos : Bool) : Option Int :=
  if adj < maxdist then
    if rd32i buf ((p_ramf : Int) + cond pos adj (-adj)) = hdr then
      some (cond pos adj (-adj))
    else if adj < 0x0c then
      match pos with
      | true => ramfSweepAux buf p_ramf hdr maxdist adj false
      | false => ramfSweepAux buf p_ramf hdr maxdist (adj + 4) true
    else ramfSweepAux buf p_ramf hdr maxdist (adj + 4) true
  else none
termination_by (2 * (maxdist - adj).toNat + (if pos then 1 else 0) : Nat)
decreasing_by
  all_goals simp_wf
  all_goals omega

/-- The whole sweep as entered from `find_ramf`: `ramf_adj = 4`,
`sign = 1`. -/
def ramfSweep (buf : List Nat) (p_ramf hdr : Nat) (maxdist : Int) : Option Int :=
  ramfSweepAux buf p_ramf hdr maxdist 4 true

/-- The arithmetic tail of the probe sequence: `adj, adj+4, adj+8, ...`,
each strictly below `maxdist`. -/
def tailProbes (maxdist adj : Int) : List Int :=
  (List.range ((maxdist - adj + 3) / 4).toNat).map (fun (i : Nat) => adj + 4 * (i : Int))

/-- The probe deltas the code actually visits, in order:
`+4, -4, +8, -8, +12` (each magnitude strictly below `maxdist`), then
`+16, +20, ...` strictly below `maxdist`.  The delta `-12` is never
probed: at `ramf_adj = 12` the update rule takes the `else` arm, which
forces the sign positive and advances. -/
def actualProbes (maxdist : Int) : List Int :=
  ([4, -4, 8, -8, 12].filter (fun d => decide ((d.natAbs : Int) < maxdist))) ++
    tailProbes maxdist 16

theorem tailProbes_nil {maxdist adj : Int} (h : maxdist ≤ adj) :
    tailProbes maxdist adj = [] := by
  unfold tailProbes
  rw [show ((maxdist - adj + 3) / 4).toNat = 0 from by omega]
  rfl

theorem tailProbes_cons {maxdist adj : Int} (h : adj < maxdist) :
    tailProbes maxdist adj = adj :: tailProbes maxdist (adj + 4) := by
  unfold tailProbes
  have hn : ((maxdist - adj + 3) / 4).toNat = ((maxdist - (adj + 4) + 3) / 4).toNat + 1 := by
    omega
  rw [hn, List.range_succ_eq_map, List.map_cons, List.map_map]
  have h0 : adj + 4 * ((0 : Nat) : Int) = adj := by push_cast; ring
  rw [h0]
  refine congrArg _ (List.map_congr_left ?_)
  intro i hi
  simp only [Function.comp_apply, Nat.succ_eq_add_one]
  push_cast
  ring

theorem ramfSweepAux_tail (buf : List Nat) (p hdr : Nat) (maxdist : Int) :
    ∀ (d : Nat) (adj : Int), (maxdist - adj).toNat = d → 12 ≤ adj →
    ramfSweepAux buf p hdr maxdist adj true =
      (tailProbes maxdist adj).find?
        (fun dl => decide (rd32i buf ((p : Int) + dl) = hdr)) := by
  intro d
  induction d using Nat.strong_induction_on with
  | _ d ih =>
    intro adj hd h12
    by_cases hlt : adj < maxdist
    · rw [tailProbes_cons hlt]
      unfold ramfSweepAux
      rw [if_pos hlt]
      dsimp only [cond]
      by_cases hm : rd32i buf ((p : Int) + adj) = hdr
      · rw [if_pos hm]
        simp [List.find?_cons, hm]
      · rw [if_neg hm, if_neg (by omega : ¬adj < 0x0c)]
        have hstep : (adj :: tailProbes maxdist (adj + 4)).find?
            (fun dl => decide (rd32i buf ((p : Int) + dl) = hdr)) =
            (tailProbes maxdist (adj + 4)).find?
            (fun dl => decide (rd32i buf ((p : Int) + dl) = hdr)) := by
          simp [List.find?_cons, hm]
        rw [hstep]
        exact ih ((maxdist - (adj + 4)).toNat) (by omega) _ rfl (by omega)
    · rw [tailProbes_nil (by omega)]
      unfold ramfSweepAux
      rw [if_neg hlt]
      rfl

theorem actualProbes_r1 {maxdist : Int} (h : maxdist ≤ 4) : actualProbes maxdist = [] := by
  unfold actualProbes
  rw [tailProbes_nil (by omega)]
  simp only [List.filter_cons, List.filter_nil]
  rw [if_neg (by simp; omega), if_neg (by simp; omega), if_neg (by simp; omega),
    if_neg (by simp; omega), if_neg (by simp; omega)]
  rfl

theorem actualProbes_r2 {maxdist : Int} (h4 : 4 < maxdist) (h8 : maxdist ≤ 8) :
    actualProbes maxdist = [4, -4] := by
  unfold actualProbes
  rw [tailProbes_nil (by omega)]
  simp only [List.filter_cons, List.filter_nil]
  rw [if_pos (by simp; omega), if_pos (by simp; omega), if_neg (by simp; omega),
    if_neg (by simp; omega), if_neg (by simp; omega)]
  rfl

theorem actualProbes_r3 {maxdist : Int} (h8 : 8 < maxdist) (h12 : maxdist ≤ 12) :
    actualProbes maxdist = [4, -4, 8, -8] := by
  unfold actualProbes
  rw [tailProbes_nil (by omega)]
  simp only [List.filter_cons, List.filter_nil]
  rw [if_pos (by simp; omega), if_pos (by simp; omega), if_pos (by simp; omega),
    if_pos (by simp; omega), if_neg (by simp; omega)]
  rfl

theorem actualProbes_r4 {maxdist : Int} (h12 : 12 < maxdist) :
    actualProbes maxdist = 4 :: -4 :: 8 :: -8 :: 12 :: tailProbes maxdist 16 := by
  unfold actualProbes
  simp only [List.filter_cons, List.filter_nil]
  rw [if_pos (by simp; omega), if_pos (by simp; omega), if_pos (by simp; omega),
    if_pos (by simp; omega), if_pos (by simp; omega)]
  rfl

theorem ramfSweepAux_stop {buf : List Nat} {p hdr : Nat} {maxdist adj : Int}
    (pos : Bool) (h : ¬adj < maxdist) :
    ramfSweepAux buf p hdr maxdist adj pos = none := by
  unfold ramfSweepAux
  rw [if_neg h]

theorem ramfSweepAux_hit_pos {buf : List Nat} {p hdr : Nat} {maxdist adj : Int}
    (h : adj < maxdist) (hm : rd32i buf ((p : Int) + adj) = hdr) :
    ramfSweepAux buf p hdr maxdist adj true = some adj := by
  unfold ramfSweepAux
  rw [if_pos h]
  dsimp only [cond]
  rw [if_pos hm]

theorem ramfSweepAux_hit_neg {buf : List Nat} {p hdr : Nat} {maxdist adj : Int}
    (h : adj < maxdist) (hm : rd32i buf ((p : Int) + -adj) = hdr) :
    ramfSweepAux buf p hdr maxdist adj false = some (-adj) := by
  unfold ramfSweepAux
  rw [if_pos h]
  dsimp only [cond]
  rw [if_pos hm]

theorem ramfSweepAux_miss_pos {buf : List Nat} {p hdr : Nat} {maxdist adj : Int}
    (h : adj < maxdist) (h12 : adj < 0x0c)
    (hm : ¬rd32i buf ((p : Int) + adj) = hdr) :
    ramfSweepAux buf p hdr maxdist adj true = ramfSweepAux buf p hdr maxdist adj false := by
  rw [ramfSweepAux.eq_def]
  rw [if_pos h]
  dsimp only [cond]
  rw [if_neg hm, if_pos h12]

theorem ramfSweepAux_miss_neg {buf : List Nat} {p hdr : Nat} {maxdist adj : Int}
    (h : adj < maxdist) (h12 : adj < 0x0c)
    (hm : ¬rd32i buf ((p : Int) + -adj) = hdr) :
    ramfSweepAux buf p hdr maxdist adj false =
      ramfSweepAux buf p hdr maxdist (adj + 4) true := by
  rw [ramfSweepAux.eq_def]
  rw [if_pos h]
  dsimp only [cond]
  rw [if_neg hm, if_pos h12]

theorem ramfSweepAux_miss_big {buf : List Nat} {p hdr : Nat} {maxdist adj : Int}
    (h : adj < maxdist) (h12 : ¬adj < 0x0c)
    (hm : ¬rd32i buf ((p : Int) + adj) = hdr) :
    ramfSweepAux buf p hdr maxdist adj true =
      ramfSweepAux buf p hdr maxdist (adj + 4) true := by
  rw [ramfSweepAux.eq_def]
  rw [if_pos h]
  dsimp only [cond]
  rw [if_neg hm, if_neg h12]

theorem ramfSweep_actual (buf : List Nat) (p hdr : Nat) (maxdist : Int) :
    ramfSweep buf p hdr maxdist =
      (actualProbes maxdist).find?
        (fun dl => decide (rd32i buf ((p : Int) + dl) = hdr)) := by
  unfold ramfSweep
  rcases le_or_lt maxdist 4 with h4 | h4
  · rw [actualProbes_r1 h4, ramfSweepAux_stop true (by omega)]
    rfl
  by_cases m1 : rd32i buf ((p : Int) + 4) = hdr
  · rw [ramfSweepAux_hit_pos h4 m1]
    rcases le_or_lt maxdist 8 with h8 | h8
    · rw [actualProbes_r2 h4 h8]
      simp [List.find?_cons, m1]
    rcases le_or_lt maxdist 12 with h12 | h12
    · rw [actualProbes_r3 h8 h12]
      simp [List.find?_cons, m1]
    · rw [actualProbes_r4 h12]
      simp [List.find?_cons, m1]
  rw [ramfSweepAux_miss_pos h4 (by omega) m1]
  by_cases m2 : rd32i buf ((p : Int) + -4) = hdr
  · rw [ramfSweepAux_hit_neg h4 m2]
    rcases le_or_lt maxdist 8 with h8 | h8
    · rw [actualProbes_r2 h4 h8]
      simp [List.find?_cons, m1, m2]
    rcases le_or_lt maxdist 12 with h12 | h12
    · rw [actualProbes_r3 h8 h12]
      simp [List.find?_cons, m1, m2]
    · rw [actualProbes_r4 h12]
      simp [List.find?_cons, m1, m2]
  rw [ramfSweepAux_miss_neg h4 (by omega) m2]
  norm_num
  rcases le_or_lt maxdist 8 with h8 | h8
  · rw [actualProbes_r2 h4 h8, ramfSweepAux_stop true (by omega)]
    simp [List.find?_cons, m1, m2]
  by_cases m3 : rd32i buf ((p : Int) + 8) = hdr
  · rw [ramfSweepAux_hit_pos h8 m3]
    rcases le_or_lt maxdist 12 with h12 | h12
    · rw [actualProbes_r3 h8 h12]
      simp [List.find?_cons, m1, m2, m3]
    · rw [actualProbes_r4 h12]
      simp [List.find?_cons, m1, m2, m3]
  rw [ramfSweepAux_miss_pos h8 (by omega) m3]
  by_cases m4 : rd32i buf ((p : Int) + -8) = hdr
  · rw [ramfSweepAux_hit_neg h8 m4]
    rcases le_or_lt maxdist 12 with h12 | h12
    · rw [actualProbes_r3 h8 h12]
      simp [List.find?_cons, m1, m2, m3, m4]
    · rw [actualProbes_r4 h12]
      simp [List.find?_cons, m1, m2, m3, m4]
  rw [ramfSweepAux_miss_neg h8 (by omega) m4]
  norm_num
  rcases le_or_lt maxdist 12 with h12 | h12
  · rw [actualProbes_r3 h8 h12, ramfSweepAux_stop true (by omega)]
    simp [List.find?_cons, m1, m2, m3, m4]
  rw [actualProbes_r4 h12]
  by_cases m5 : rd32i buf ((p : Int) + 12) = hdr
  · rw [ramfSweepAux_hit_pos h12 m5]
    simp [List.find?_cons, m1, m2, m3, m4, m5]
  rw [ramfSweepAux_miss_big h12 (by omega) m5]
  norm_num
  rw [ramfSweepAux_tail buf p hdr maxdist ((maxdist - 16).toNat) 16 rfl (by omega)]
  simp [List.find?_cons, m1, m2, m3, m4, m5]


/-- Modelled from the spec (claim C8): the claimed probe order
`+4, -4, +8, -8, +12, -12`, then `+16, +20, ...`, magnitudes strictly
below `maxdist`. -/
def specProbes (maxdist : Int) : List Int :=
  ([4, -4, 8, -8, 12, -12].filter (fun d => decide ((d.natAbs : Int) < maxdist))) ++
    tailProbes maxdist 16

/-- Modelled from the spec (claim C8): record the first probe of
`specProbes` whose word equals the header. -/
def specSweep (buf : List Nat) (p_ramf hdr : Nat) (maxdist : Int) : Option Int :=
  (specProbes maxdist).find? (fun dl => decide (rd32i buf ((p_ramf : Int) + dl) = hdr))

/-- A 48-byte image whose only header-valued word sits at byte offset 4,
which is `p_ramf - 12` for `p_ramf = 16`. -/
def ramfCexBuf : List Nat :=
  [0, 0, 0, 0, 0, 0, 0, 1, 0, 0, 0, 0, 0, 0, 0, 0,
   0, 0, 0, 0, 0, 0, 0, 0, 0, 0, 0, 0, 0, 0, 0, 0,
   0, 0, 0, 0, 0, 0, 0, 0, 0, 0, 0, 0, 0, 0, 0, 0]

/-- C8 counterexample: with the header word only at delta `-12`
(`p_ramf = 16`, `maxdist = 0x20`), the claimed sign-alternating sweep
through `+4, -4, +8, -8, +12, -12, +16, ...` would find delta `-12`, but
the code's sweep finds nothing: after probing `+12` the update rule
(`ramf_adj < 0x0c` fails) forces the sign positive, so `-12` is never
probed. -/
theorem find_ramf_sweep_cex :
    ramfSweep ramfCexBuf 16 1 32 = none ∧
    specSweep ramfCexBuf 16 1 32 = some (-12) := by
  constructor
  · rw [ramfSweep_actual]
    decide
  · decide

/-- C8 (amended): the sweep of `find_ramf` probes the candidate deltas
in the order `+4, -4, +8, -8, +12`, then `+16, +20, ...`, each with
magnitude strictly below `pRAMF_maxdist`, and records the first probe
whose word equals the RAMF header; the delta `-12` is never probed. -/
theorem find_ramf_probe_order (buf : List Nat) (p hdr : Nat) (maxdist : Int) :
    ramfSweep buf p hdr maxdist =
      (actualProbes maxdist).find?
        (fun dl => decide (rd32i buf ((p : Int) + dl) = hdr)) :=
  ramfSweep_actual buf p hdr maxdist

/- ## validate_altcks: the alternate checksum block
(nisrom.c lines 372-416, entered from find_ramf lines 534-546) -/

/-- Modelled from the spec: `sum32(buf, len)` reads the buffer as
`len / 4` big-endian 32-bit words and returns their wrapping sum and
xor; excess bytes beyond the last whole word are ignored.  (`sum32` is
declared in nislib.h but its implementation file is not in src/.) -/
def sum32 (buf : List Nat) (len : Nat) : Nat × Nat :=
  ((List.range (len / 4)).foldl (fun s (i : Nat) => u32 (s + rd32 buf (4 * i))) 0,
   (List.range (len / 4)).foldl (fun x (i : Nat) => x ^^^ rd32 buf (4 * i)) 0)

/-- Modelled from the spec: `u32memstr(buf, buflen, needle)` returns the
first 4-aligned offset whose big-endian word equals `needle`, never
reading past `buflen`; `none` when absent.  (`u32memstr` is declared in
nislib.h but its implementation file is not in src/.) -/
def u32memstr (buf : List Nat) (buflen : Nat) (needle : Nat) : Option Nat :=
  ((List.range (buflen / 4)).map (fun i => 4 * i)).find?
    (fun o => decide (rd32 buf o = needle))

/-- `altcs_bsize = (((p_acend + 1) - p_acstart) & ~0x03) + 4` on
`uint32_t` (nisrom.c line 394). -/
def altcks_bsize (p_acstart p_acend : Nat) : Nat :=
  u32 (((p_acend + 1 - p_acstart) &&& 0xFFFFFFFC) + 4)

/-- Result of `validate_altcks`: return code, the recorded offsets
`p_acs`/`p_acx` (`none` = left unset / `UINT32_MAX`), and the
`cks_alt_good` flag. -/
structure AltRes where
  ret : Int
  p_acs : Option Nat
  p_acx : Option Nat
  good : Bool

/-- nisrom.c `validate_altcks` (lines 372-416): `none` bounds model the
`UINT32_MAX` sentinel.  On valid bounds it folds `altcs_bsize` bytes
from `p_acstart`, searches the whole image for the two fold words, and
raises `cks_alt_good` only when both are found. -/
def validate_altcks (buf : List Nat) (siz : Nat) (p_acstart p_acend : Option Nat) : AltRes :=
  match p_acstart, p_acend with
  | some s, some e =>
    if e ≤ s then ⟨-1, none, none, false⟩
    else
      let bsize := altcks_bsize s e
      let acs := (sum32 (buf.drop s) bsize).1
      let acx := (sum32 (buf.drop s) bsize).2
      match u32memstr buf siz acs, u32memstr buf siz acx with
      | some os, some ox => ⟨0, some os, some ox, true⟩
      | _, _ => ⟨-1, none, none, false⟩
  | _, _ => ⟨-1, none, none, false⟩

/-- The guard `find_ramf` runs before calling `validate_altcks`
(nisrom.c lines 534-546): out-of-range or inverted bounds are reset to
`UINT32_MAX` and the validation is skipped. -/
def altcksStage (buf : List Nat) (siz p_acstart p_acend : Nat) : AltRes :=
  if siz ≤ p_acstart ∨ siz ≤ p_acend ∨ p_acend ≤ p_acstart then
    ⟨-1, none, none, false⟩
  else validate_altcks buf siz (some p_acstart) (some p_acend)

theorem validate_altcks_good {buf : List Nat} {siz s e : Nat}
    (hgood : (validate_altcks buf siz (some s) (some e)).good = true) :
    s < e ∧ ∃ os ox,
      (validate_altcks buf siz (some s) (some e)).p_acs = some os ∧
      (validate_altcks buf siz (some s) (some e)).p_acx = some ox ∧
      rd32 buf os = (sum32 (buf.drop s) (altcks_bsize s e)).1 ∧
      rd32 buf ox = (sum32 (buf.drop s) (altcks_bsize s e)).2 := by
  unfold validate_altcks at hgood ⊢
  dsimp only at hgood ⊢
  by_cases hse : e ≤ s
  · rw [if_pos hse] at hgood
    simp at hgood
  rw [if_neg hse] at hgood ⊢
  cases hs : u32memstr buf siz (sum32 (buf.drop s) (altcks_bsize s e)).1 with
  | none =>
    rw [hs] at hgood
    simp at hgood
  | some os =>
    cases hx : u32memstr buf siz (sum32 (buf.drop s) (altcks_bsize s e)).2 with
    | none =>
      rw [hs, hx] at hgood
      simp at hgood
    | some ox =>
      refine ⟨by omega, os, ox, rfl, rfl, ?_, ?_⟩
      · have := List.find?_some hs
        simpa using this
      · have := List.find?_some hx
        simpa using this

/-- C9: whenever the pipeline raises `cks_alt_good`, the bounds satisfy
`p_acstart < p_acend < siz`, and the wrapping 32-bit sum/xor fold over
the `altcs_bsize`-byte block starting at `p_acstart` equals the words
stored at the recorded offsets `p_acs` and `p_acx`. -/
theorem altcks_invariant (buf : List Nat) (siz p_acstart p_acend : Nat)
    (hgood : (altcksStage buf siz p_acstart p_acend).good = true) :
    p_acstart < p_acend ∧ p_acend < siz ∧
    ∃ os ox,
      (altcksStage buf siz p_acstart p_acend).p_acs = some os ∧
      (altcksStage buf siz p_acstart p_acend).p_acx = some ox ∧
      rd32 buf os = (sum32 (buf.drop p_acstart) (altcks_bsize p_acstart p_acend)).1 ∧
      rd32 buf ox = (sum32 (buf.drop p_acstart) (altcks_bsize p_acstart p_acend)).2 := by
  unfold altcksStage at hgood ⊢
  by_cases hg : siz ≤ p_acstart ∨ siz ≤ p_acend ∨ p_acend ≤ p_acstart
  · rw [if_pos hg] at hgood
    simp at hgood
  rw [if_neg hg] at hgood ⊢
  obtain ⟨hlt, os, ox, h1, h2, h3, h4⟩ := validate_altcks_good hgood
  exact ⟨by omega, by omega, os, ox, h1, h2, h3, h4⟩

/-- A 32-byte image for the `altcks_invariant` witness: block words
`1, 2, 3` (bounds `0..7`, rounded size 12), fold `(6, 0)`, the sum found
at offset 12 and the xor at offset 16. -/
def altcksBuf : List Nat :=
  [0, 0, 0, 1, 0, 0, 0, 2, 0, 0, 0, 3, 0, 0, 0, 6,
   0, 0, 0, 0, 0, 0, 0, 0, 0, 0, 0, 0, 0, 0, 0, 0]

/-- Witness for `altcks_invariant` at a concrete image. -/
theorem altcks_invariant_witness :
    0 < 7 ∧ 7 < 32 ∧
    ∃ os ox,
      (altcksStage altcksBuf 32 0 7).p_acs = some os ∧
      (altcksStage altcksBuf 32 0 7).p_acx = some ox ∧
      rd32 altcksBuf os = (sum32 (altcksBuf.drop 0) (altcks_bsize 0 7)).1 ∧
      rd32 altcksBuf ox = (sum32 (altcksBuf.drop 0) (altcks_bsize 0 7)).2 :=
  altcks_invariant altcksBuf 32 0 7 (by decide)

end Nisutils
